import Mathlib

/-!
Verification development for the specmem embedding service.

This file shallowly embeds the parts of the source that the checked
properties are about:

* the dimension adapter (class AdaptivePCA and
  FrankensteinEmbeddings._transform_dims in frankenstein-embeddings.py),
* the embedding pipeline (FrankensteinEmbeddings.embed_single and
  FrankensteinEmbeddings.embed_batch),
* the disk-backed cache (class DiskBackedEmbeddingCache),
* the socket server request dispatcher (EmbeddingServer.handle_request),
* the FIFO+ACK scheduler (class QQMSv2 and class OverflowQueue in
  qqms_v2.py).

Modelling conventions:

* Python floats are idealised as rationals; machinery that genuinely
  lives outside rational arithmetic (the transformer encoder, the
  float sqrt inside np.linalg.norm, SHA-256, the fitted sklearn PCA
  transforms, the seeded random-projection expander) is carried as
  opaque function parameters in the structure Params, so every theorem
  holds for all instantiations and witnesses pick concrete ones.
* Python dicts / OrderedDicts are association lists; dict assignment
  updates in place when the key exists and appends otherwise, which
  matches insertion-order semantics.
* Wall-clock instants are rationals passed explicitly.
-/

set_option maxRecDepth 16000

namespace SpecMem

/-- A vector of floats (idealised as rationals). -/
abbrev Vec := List ℚ

/-- Python truthiness test used by the cache: true iff the text is empty
or whitespace-only, i.e. "not text or not text.strip()". -/
def strBlank (s : String) : Bool :=
  s.toList.all (fun c => c.isWhitespace)

/-- Slice v[..., :n] for an integer bound. All modelled call sites have
a non-negative n, so Nat truncation is faithful. -/
def takeInt (v : Vec) (n : Int) : Vec := v.take n.toNat

/-- numpy nbytes of a stored embedding: four bytes per float32 element.
Only the element count matters to the proofs. -/
def nbytes (v : Vec) : Nat := 4 * v.length

/-- State of class AdaptivePCA: a training buffer and the fitted PCA
models keyed by their target dimension. A fitted model is opaque
(sklearn), carried as a plain function on vectors. -/
structure PCAState where
  isTrained : Bool
  minSamples : Nat
  trainingBuffer : List Vec
  pcaModels : List (Int × (Vec → Vec))

/-- Opaque machinery behind the embedder, carried as parameters:
encode is model.encode, l2norm is np.linalg.norm, textHash is the
truncated SHA-256 of DiskBackedEmbeddingCache._text_hash, expand is
DimensionExpander.expand, train is AdaptivePCA._train (the sklearn
fit), dbTargetDims is the dimension the project database declares. -/
structure Params where
  encode : String → Vec
  l2norm : Vec → ℚ
  textHash : String → Int → String
  expand : Vec → Int → String → Vec
  train : PCAState → PCAState
  dbTargetDims : Int

/-- AdaptivePCA.add_samples: buffer new native vectors and fit once the
buffer reaches min_samples; a no-op after training. -/
def pcaAddSamples (train : PCAState → PCAState) (st : PCAState) (embs : List Vec) : PCAState :=
  if st.isTrained then st
  else
    let st2 : PCAState := { st with trainingBuffer := st.trainingBuffer ++ embs }
    if st.minSamples ≤ st2.trainingBuffer.length then train st2 else st2

/-- Insert into an ascending list of keys; models one step of Python
sorted(...) over the model keys. -/
def insertSorted (x : Int) : List Int → List Int
  | [] => [x]
  | y :: ys => if x ≤ y then x :: y :: ys else y :: insertSorted x ys

/-- sorted(self.pca_models.keys()) from AdaptivePCA.transform. -/
def sortInts (l : List Int) : List Int := l.foldr insertSorted []

/-- min(available, key=lambda x: abs(x - target_dims)): the first key of
the ascending list minimising the absolute distance to the target
(Python min keeps the earliest minimum). -/
def closestKey (target : Int) : List Int → Option Int
  | [] => none
  | k :: ks => some (ks.foldl (fun best x => if |x - target| < |best - target| then x else best) k)

/-- Truncate a fitted model's output when it is longer than the target
("If PCA gives more dims than target, truncate"). -/
def truncLonger (r : Vec) (targetDims : Int) : Vec :=
  if targetDims < (r.length : Int) then takeInt r targetDims else r

/-- AdaptivePCA.transform: identity when already small enough, plain
truncation for reductions under 10 percent, otherwise the fitted model
for the exact target if cached, else the fitted model with the closest
key, else truncation. The reduction ratio (an exact float expression
over small integers) is idealised as a rational. -/
def pcaTransform (st : PCAState) (emb : Vec) (targetDims : Int) : Vec :=
  if (emb.length : Int) ≤ targetDims then emb
  else if ((emb.length : ℚ) - (targetDims : ℚ)) / (emb.length : ℚ) < 1 / 10 then
    takeInt emb targetDims
  else
    let pcaFound : Option (Vec → Vec) :=
      match st.pcaModels.lookup targetDims with
      | some g => some g
      | none =>
        match closestKey targetDims (sortInts (st.pcaModels.map Prod.fst)) with
        | some c => st.pcaModels.lookup c
        | none => none
    match pcaFound with
    | some g => truncLonger (g emb) targetDims
    | none => takeInt emb targetDims

/-- Index entry of the disk cache: {dims, size, created, accessed}. -/
structure IndexEntry where
  dims : Int
  size : Nat
  created : ℚ
  accessed : ℚ
deriving DecidableEq

/-- State of class DiskBackedEmbeddingCache. The RAM tier is an
insertion-ordered association list (OrderedDict), oldest first; the
disk tier maps cache keys to stored vectors; the index mirrors the
JSON index file. -/
structure CacheState where
  ramCache : List (String × Vec)
  ramCacheSize : Nat
  diskFiles : List (String × Vec)
  index : List (String × IndexEntry)
  maxBytes : Nat
  hits : Nat
  misses : Nat
  diskWrites : Nat
deriving DecidableEq

/-- Remove every binding of a key from an association list. Keys are
unique in the modelled dicts, so this is plain deletion. -/
def eraseKey (l : List (String × α)) (k : String) : List (String × α) :=
  l.filter (fun q => !(q.1 == k))

/-- Replace the binding of an existing key, keeping its position. -/
def updateKey (k : String) (v : α) : List (String × α) → List (String × α)
  | [] => []
  | q :: l => if q.1 = k then (k, v) :: l else q :: updateKey k v l

/-- Python dict assignment d[k] = v: update in place when present
(keeping the position, as OrderedDict does), append otherwise. -/
def setKey (l : List (String × α)) (k : String) (v : α) : List (String × α) :=
  if (l.lookup k).isSome then updateKey k v l
  else l ++ [(k, v)]

/-- DiskBackedEmbeddingCache._add_to_ram_cache: evict the oldest entry
when at capacity, then store. -/
def addToRam (rc : List (String × Vec)) (size : Nat) (k : String) (v : Vec) :
    List (String × Vec) :=
  let rc1 := if size ≤ rc.length then rc.drop 1 else rc
  setKey rc1 k v

/-- Update the accessed timestamp of an index entry. -/
def touchIndex (idx : List (String × IndexEntry)) (k : String) (now : ℚ) :
    List (String × IndexEntry) :=
  idx.map (fun q => if q.1 = k then (k, { q.2 with accessed := now }) else q)

/-- DiskBackedEmbeddingCache.get: RAM tier first (hit promotes to
most-recently-used), then disk (validating the stored dimension and
deleting stale files), counting hits and misses as the source does. -/
def cacheGet (p : Params) (now : ℚ) (text : String) (dims : Int) (st : CacheState) :
    Option Vec × CacheState :=
  if strBlank text then (none, st)
  else if dims ≤ 0 then (none, st)
  else
    let key := p.textHash text dims
    match st.ramCache.lookup key with
    | some v =>
        (some v, { st with
                   hits := st.hits + 1
                   ramCache := eraseKey st.ramCache key ++ [(key, v)] })
    | none =>
      match st.diskFiles.lookup key with
      | some v =>
          if (v.length : Int) ≠ dims then
            (none, { st with
                     misses := st.misses + 1
                     diskFiles := eraseKey st.diskFiles key })
          else
            (some v, { st with
                       hits := st.hits + 1
                       ramCache := addToRam st.ramCache st.ramCacheSize key v
                       index := touchIndex st.index key now })
      | none => (none, { st with misses := st.misses + 1 })

/-- Sum of the entry sizes recorded in the index. -/
def indexTotalSize (idx : List (String × IndexEntry)) : Nat :=
  (idx.map (fun q => q.2.size)).sum

/-- Stable ascending insertion by accessed timestamp. -/
def insertByAccessed (e : String × IndexEntry) :
    List (String × IndexEntry) → List (String × IndexEntry)
  | [] => [e]
  | x :: xs => if e.2.accessed < x.2.accessed then e :: x :: xs else x :: insertByAccessed e xs

/-- sorted(self.index.keys(), key=lambda k: accessed): the index entries
in ascending order of last access. -/
def sortByAccessed (idx : List (String × IndexEntry)) : List (String × IndexEntry) :=
  idx.foldr insertByAccessed []

/-- The eviction loop of _maybe_evict over the access-sorted entries:
stop as soon as the remaining total is at most 0.8 * max_bytes
(written 5 * total <= 4 * max to stay in integers), else evict the
oldest entry and continue. Returns the surviving entries and the keys
of the evicted ones. -/
def evictFrom (maxBytes : Nat) : List (String × IndexEntry) →
    List (String × IndexEntry) × List String
  | [] => ([], [])
  | e :: rest =>
    if 5 * indexTotalSize (e :: rest) ≤ 4 * maxBytes then (e :: rest, [])
    else
      let r := evictFrom maxBytes rest
      (r.1, e.1 :: r.2)

/-- DiskBackedEmbeddingCache._maybe_evict: when the recorded total
exceeds max_bytes, evict oldest-by-accessed entries (removing their
disk files) until the total is at most 0.8 * max_bytes. The index is a
dict in the source; keeping the survivors in access order is
observationally equivalent since no reader depends on dict order. -/
def maybeEvict (st : CacheState) : CacheState :=
  if indexTotalSize st.index ≤ st.maxBytes then st
  else
    let r := evictFrom st.maxBytes (sortByAccessed st.index)
    { st with
      index := r.1
      diskFiles := r.2.foldl (fun d k => eraseKey d k) st.diskFiles }

/-- DiskBackedEmbeddingCache.put: guard empty text, empty embeddings and
non-positive dims; write the disk file, record the index entry, store
in the RAM tier, then run eviction. The periodic index save is pure
I/O and has no modelled effect. -/
def cachePut (p : Params) (now : ℚ) (text : String) (dims : Int) (emb : Vec)
    (st : CacheState) : CacheState :=
  if strBlank text then st
  else if emb.length = 0 then st
  else if dims ≤ 0 then st
  else
    let key := p.textHash text dims
    let st1 := { st with
                 diskFiles := setKey st.diskFiles key emb
                 diskWrites := st.diskWrites + 1 }
    let st2 := { st1 with index := setKey st1.index key ⟨dims, nbytes emb, now, now⟩ }
    let st3 := { st2 with ramCache := addToRam st2.ramCache st2.ramCacheSize key emb }
    maybeEvict st3

/-- EmbeddingPriority / qqms_v2.Priority levels. -/
inductive Priority where
  | critical
  | high
  | medium
  | low
  | trivial
deriving DecidableEq

/-- The embedder counters that the modelled operations touch. -/
structure Stats where
  totalEmbeddings : Nat
  expansions : Nat
  compressions : Nat
  native : Nat
  diskCacheHits : Nat
  diskCacheMisses : Nat
deriving DecidableEq

/-- State of class FrankensteinEmbeddings. dimTarget and nativeDims
mirror dim_config; the Bool flags mirror the optional components
(disk_cache, adaptive_pca, expander, throttler being None or not).
encoderCalls counts model.encode invocations, throttleCalls and
batchThrottleCalls record the priority arguments handed to the
throttler, and lastBatchPriority records the priority argument of the
most recent embed_batch call; these three fields are instrumentation
of calls the source makes, with no feedback into control flow. -/
structure EmbedderState where
  dimTarget : Int
  nativeDims : Int
  pca : PCAState
  pcaEnabled : Bool
  expanderEnabled : Bool
  diskCacheEnabled : Bool
  throttlerEnabled : Bool
  cache : CacheState
  stats : Stats
  encoderCalls : Nat
  throttleCalls : List Priority
  batchThrottleCalls : List (Nat × Priority)
  lastBatchPriority : Option Priority

/-- Effective target dimension: "force_dims or self._get_target_dims()".
A force_dims of 0 is falsy in Python and falls back to the oracle. -/
def effectiveTarget (st : EmbedderState) (forceDims : Option Int) : Int :=
  match forceDims with
  | some d => if d = 0 then st.dimTarget else d
  | none => st.dimTarget

/-- FrankensteinEmbeddings._transform_dims: native / compression /
expansion dispatch with the matching counters. -/
def transformDims (p : Params) (st : EmbedderState) (emb : Vec) (targetDims : Int)
    (text : String) : Vec × EmbedderState :=
  if (emb.length : Int) = targetDims then
    (emb, { st with stats := { st.stats with native := st.stats.native + 1 } })
  else if targetDims < (emb.length : Int) then
    let st2 := { st with stats := { st.stats with compressions := st.stats.compressions + 1 } }
    if st2.pcaEnabled then (pcaTransform st2.pca emb targetDims, st2)
    else (takeInt emb targetDims, st2)
  else
    let st2 := { st with stats := { st.stats with expansions := st.stats.expansions + 1 } }
    if st2.expanderEnabled then (p.expand emb targetDims text, st2)
    else (emb ++ List.replicate (targetDims - (emb.length : Int)).toNat 0, st2)

/-- Final normalisation of embed_single / embed_batch: divide by the
norm when it is positive. -/
def normalize (p : Params) (v : Vec) : Vec :=
  let n := p.l2norm v
  if 0 < n then v.map (fun x => x / n) else v

/-- The cache-miss tail of embed_single: throttle, encode, feed the PCA
training buffer, adapt dimensions, normalise, count, store. -/
def embedSingleCompute (p : Params) (now : ℚ) (st : EmbedderState) (text : String)
    (target : Int) (priority : Priority) : Vec × EmbedderState :=
  let s1 := { st with throttleCalls :=
      if st.throttlerEnabled then st.throttleCalls ++ [priority] else st.throttleCalls }
  let emb := p.encode text
  let s2 := { s1 with encoderCalls := s1.encoderCalls + 1 }
  let s3 := { s2 with pca :=
      if s2.pcaEnabled then pcaAddSamples p.train s2.pca [emb] else s2.pca }
  let tr := transformDims p s3 emb target text
  let e3 := normalize p tr.1
  let s5 := { tr.2 with stats :=
      { tr.2.stats with totalEmbeddings := tr.2.stats.totalEmbeddings + 1 } }
  let s6 := { s5 with cache :=
      if s5.diskCacheEnabled then cachePut p now text target e3 s5.cache else s5.cache }
  (e3, s6)

/-- FrankensteinEmbeddings.embed_single: resolve the target dimension,
consult the disk cache, and on a miss run the encoding pipeline. -/
def embedSingle (p : Params) (now : ℚ) (st : EmbedderState) (text : String)
    (forceDims : Option Int) (priority : Priority) : Vec × EmbedderState :=
  let target := effectiveTarget st forceDims
  if st.diskCacheEnabled then
    match cacheGet p now text target st.cache with
    | (some v, c2) =>
        (v, { st with
              cache := c2
              stats := { st.stats with
                         diskCacheHits := st.stats.diskCacheHits + 1
                         totalEmbeddings := st.stats.totalEmbeddings + 1 } })
    | (none, c2) =>
        embedSingleCompute p now
          { st with
            cache := c2
            stats := { st.stats with diskCacheMisses := st.stats.diskCacheMisses + 1 } }
          text target priority
  else
    embedSingleCompute p now st text target priority

/-- The cache scan at the head of embed_batch: walk the texts in order,
recording hits as index-vector pairs and misses as index-text pairs
(the source keeps the two miss components in parallel lists appended
in lockstep). -/
def scanCache (p : Params) (now : ℚ) (target : Int) :
    List String → Nat → EmbedderState →
    List (Nat × Vec) × List (Nat × String) × EmbedderState
  | [], _, st => ([], [], st)
  | t :: ts, i, st =>
    match cacheGet p now t target st.cache with
    | (some v, c2) =>
      let st2 := { st with
                   cache := c2
                   stats := { st.stats with diskCacheHits := st.stats.diskCacheHits + 1 } }
      let r := scanCache p now target ts (i + 1) st2
      ((i, v) :: r.1, r.2.1, r.2.2)
    | (none, c2) =>
      let st2 := { st with
                   cache := c2
                   stats := { st.stats with diskCacheMisses := st.stats.diskCacheMisses + 1 } }
      let r := scanCache p now target ts (i + 1) st2
      (r.1, (i, t) :: r.2.1, r.2.2)

/-- Records the priority argument of an embed_batch call. -/
def batchEntryState (st : EmbedderState) (priority : Priority) : EmbedderState :=
  { st with lastBatchPriority := some priority }

/-- The partial-cache-hit partition of embed_batch: scan the cache when
it is enabled, otherwise every text is uncached. -/
def batchScan (p : Params) (now : ℚ) (target : Int) (texts : List String)
    (st : EmbedderState) :
    List (Nat × Vec) × List (Nat × String) × EmbedderState :=
  if st.diskCacheEnabled then scanCache p now target texts 0 st
  else ([], texts.enum, st)

/-- The final comprehension of embed_batch: row i is cached_embeddings[i].
The source dict always contains every index; a default covers the
Prop-free total function. -/
def buildRows (n : Nat) (m : List (Nat × Vec)) : List Vec :=
  (List.range n).map (fun i => (m.lookup i).getD [])

/-- One iteration of the transform-and-cache loop of embed_batch: adapt
the fresh native vector, normalise it, store it in the disk cache, and
record it under its original index. -/
def batchStep (p : Params) (now : ℚ) (target : Int)
    (acc : List (Nat × Vec) × EmbedderState) (q : (Nat × String) × Vec) :
    List (Nat × Vec) × EmbedderState :=
  let tr := transformDims p acc.2 q.2 target q.1.2
  let e3 := normalize p tr.1
  let s2 := { tr.2 with cache :=
      if tr.2.diskCacheEnabled then cachePut p now q.1.2 target e3 tr.2.cache
      else tr.2.cache }
  (acc.1 ++ [(q.1.1, e3)], s2)

/-- The state updates of embed_batch between the cache scan and the
transform loop: record the single throttler acquire_batch call, the
single batched model.encode invocation, and the PCA training feed of
the freshly encoded vectors. -/
def batchMissState (p : Params) (misses : List (Nat × String)) (priority : Priority)
    (s1 : EmbedderState) : EmbedderState :=
  let s2 := { s1 with batchThrottleCalls :=
      if s1.throttlerEnabled then s1.batchThrottleCalls ++ [(misses.length, priority)]
      else s1.batchThrottleCalls }
  let s3 := { s2 with encoderCalls := s2.encoderCalls + 1 }
  { s3 with pca :=
      if s3.pcaEnabled then
        pcaAddSamples p.train s3.pca (misses.map (fun q => p.encode q.2))
      else s3.pca }

/-- FrankensteinEmbeddings.embed_batch: scan the cache, return directly
when everything was cached, otherwise throttle once, encode the
uncached texts in a single batched call, feed the PCA buffer, then
transform, normalise and cache each fresh embedding and reassemble the
rows in input order. -/
def embedBatch (p : Params) (now : ℚ) (st : EmbedderState) (texts : List String)
    (forceDims : Option Int) (priority : Priority) : List Vec × EmbedderState :=
  let target := effectiveTarget st forceDims
  let s0 := batchEntryState st priority
  let scan := batchScan p now target texts s0
  let hits := scan.1
  let misses := scan.2.1
  let s1 := scan.2.2
  if misses.isEmpty then
    (buildRows texts.length hits,
     { s1 with stats :=
        { s1.stats with totalEmbeddings := s1.stats.totalEmbeddings + texts.length } })
  else
    let s4 := batchMissState p misses priority s1
    let newEmbs := misses.map (fun q => p.encode q.2)
    let fr := (misses.zip newEmbs).foldl (batchStep p now target) ([], s4)
    (buildRows texts.length (hits ++ fr.1),
     { fr.2 with stats :=
        { fr.2.stats with totalEmbeddings := fr.2.stats.totalEmbeddings + texts.length } })

/-- The post-add-samples state of embed_batch, as seen from outside: the
scan result with the freshly encoded vectors buffered into the PCA.
Used to state which pipeline state the fresh rows are produced in. -/
def postScanState (p : Params) (now : ℚ) (target : Int) (texts : List String)
    (st : EmbedderState) : EmbedderState :=
  let scan := batchScan p now target texts st
  let s1 := scan.2.2
  { s1 with pca :=
      if s1.pcaEnabled then
        pcaAddSamples p.train s1.pca (scan.2.1.map (fun q => p.encode q.2))
      else s1.pca }

/-- The value a freshly encoded text contributes: adapt then normalise.
The state argument only matters through its PCA and feature flags. -/
def freshRow (p : Params) (st : EmbedderState) (target : Int) (text : String) : Vec :=
  normalize p (transformDims p st (p.encode text) target text).1

/-- The row embed_batch owes index i: the scanned cache value when the
scan hit, else the freshly encoded value of texts[i]. -/
def batchRowSpec (p : Params) (now : ℚ) (st : EmbedderState) (texts : List String)
    (forceDims : Option Int) (priority : Priority) (i : Nat) : Vec :=
  let target := effectiveTarget st forceDims
  let s0 := batchEntryState st priority
  let scan := batchScan p now target texts s0
  match scan.1.lookup i with
  | some v => v
  | none => freshRow p (postScanState p now target texts s0) target (texts.getD i "")

/-- A JSON value sent in the dimension field of a set_dimension request.
Python json maps integers (and booleans, which are ints in Python) to
jint; every other JSON value is jnonint carrying only its truthiness,
which is all the source inspects before the isinstance check fails. -/
inductive JDim where
  | jint (n : Int)
  | jnonint (truthy : Bool)
deriving DecidableEq

/-- The request fields the modelled branches of handle_request read.
An absent field and a JSON null are both none. The process_codebase /
process_memories / process_code_definitions flags are outside the
modelled claims and treated as absent. -/
structure Request where
  reqType : Option String := none
  stats : Bool := false
  refreshDimension : Bool := false
  text : Option String := none
  texts : Option (List String) := none
  priority : Option String := none
  dims : Option Int := none
  dimension : Option JDim := none

/-- The response shapes handle_request produces in the modelled
branches. Fields that are constant or outside the claims (model name,
query_type, complexity, the stats payload) are omitted. -/
inductive Response where
  | rEmbed (embedding : Vec) (dimensions : Nat) (targetDims : Int) (priority : String)
  | rBatch (embeddings : List Vec) (dimensions : Nat) (targetDims : Int) (count : Nat)
      (priority : String)
  | rStats
  | rReady
  | rKys
  | rGetDim (native : Int) (target : Int)
  | rSetDim (dimension : Int)
  | rRefreshed (oldDims : Int) (newDims : Int)
  | rError (msg : String)
deriving DecidableEq

/-- The priority string a response reports, when it reports one. -/
def respPriority : Response → Option String
  | Response.rEmbed _ _ _ pr => some pr
  | Response.rBatch _ _ _ _ pr => some pr
  | _ => none

/-- The embedding a single-embed response carries. -/
def respEmbedding : Response → Option Vec
  | Response.rEmbed e _ _ _ => some e
  | _ => none

/-- The dimensions field of a response. -/
def respDimensions : Response → Option Nat
  | Response.rEmbed _ d _ _ => some d
  | Response.rBatch _ d _ _ _ => some d
  | _ => none

/-- The target_dims field of a response. -/
def respTargetDims : Response → Option Int
  | Response.rEmbed _ _ t _ => some t
  | Response.rBatch _ _ t _ _ => some t
  | _ => none

/-- str.lower(), mapped over the characters (the priorities involved
are ASCII). -/
def strLower (s : String) : String := ⟨s.data.map Char.toLower⟩

/-- The priority_map lookup with default MEDIUM. -/
def parsePriority (s : String) : Priority :=
  if s = ("critical") then Priority.critical
  else if s = ("high") then Priority.high
  else if s = ("medium") then Priority.medium
  else if s = ("low") then Priority.low
  else if s = ("trivial") then Priority.trivial
  else Priority.medium

/-- The set_dimension branch of handle_request: the three-part guard
"new_dim and isinstance(new_dim, int) and new_dim > 0" (a zero integer
is falsy and fails the first conjunct; a non-integer fails the
isinstance test whatever its truthiness). -/
def handleSetDimension (req : Request) (st : EmbedderState) : Response × EmbedderState :=
  match req.dimension with
  | some (JDim.jint n) =>
      if n = 0 then (Response.rError ("Invalid dimension value"), st)
      else if 0 < n then (Response.rSetDim n, { st with dimTarget := n })
      else (Response.rError ("Invalid dimension value"), st)
  | some (JDim.jnonint _) => (Response.rError ("Invalid dimension value"), st)
  | none => (Response.rError ("Invalid dimension value"), st)

/-- EmbeddingServer.handle_request, restricted to the modelled
branches, in source order: the type dispatch (health, ready, kys,
get_dimension, set_dimension, unknown types), the stats and
refresh_dimension flags, then priority parsing and the text / texts /
error tail. The qqms_v2 acquire_throttle call only sleeps and is not
modelled; the health branch falls through to the stats branch in the
source and returns the same snapshot response. -/
def handleRequest (p : Params) (now : ℚ) (req : Request) (st : EmbedderState) :
    Response × EmbedderState :=
  if req.reqType = some ("health") then (Response.rStats, st)
  else if req.reqType = some ("ready") then (Response.rReady, st)
  else if req.reqType = some ("kys") then (Response.rKys, st)
  else if req.reqType = some ("get_dimension") then
    (Response.rGetDim st.nativeDims st.dimTarget, st)
  else if req.reqType = some ("set_dimension") then handleSetDimension req st
  else if (match req.reqType with
           | some t => decide (t ≠ ("embed") ∧ t ≠ ("batch_embed"))
           | none => false) then
    (Response.rError ((("Unknown request type: ")) ++ req.reqType.getD ("")), st)
  else if req.stats then (Response.rStats, st)
  else if req.refreshDimension then
    (Response.rRefreshed st.dimTarget p.dbTargetDims, { st with dimTarget := p.dbTargetDims })
  else
    let priorityStr := strLower (req.priority.getD ("medium"))
    let priority := parsePriority priorityStr
    match req.text with
    | some t =>
        let r := embedSingle p now st t req.dims priority
        (Response.rEmbed r.1 r.1.length r.2.dimTarget priorityStr, r.2)
    | none =>
      match req.texts with
      | some ts =>
          let priority2 := if req.priority = none then Priority.low else priority
          let r := embedBatch p now st ts req.dims priority2
          (Response.rBatch r.1
            (match r.1 with | row :: _ => row.length | [] => 0)
            r.2.dimTarget r.1.length priorityStr, r.2)
      | none => (Response.rError ("Missing text or texts field"), st)

/-! ## The FIFO + ACK scheduler (qqms_v2.py) -/

/-- QQMSv2Config, with the source defaults. Only the fields the
modelled operations read are carried. -/
structure QQMSConfig where
  cpuQueueThreshold : ℚ := 70
  cpuRejectThreshold : ℚ := 90
  maxRetries : Nat := 3
  baseRetryDelayMs : ℚ := 1000
  maxRetryDelayMs : ℚ := 30000
  leaseTimeoutMs : ℚ := 60000
  maxQueueSize : Nat := 1000
  dlqMaxSize : Nat := 500

/-- Queue item status strings. -/
inductive Status where
  | pending
  | processing
  | completed
  | failed
  | dlq
deriving DecidableEq

/-- qqms_v2.QueueItem. Priorities are the IntEnum values 0..4; the
payload and the callback are opaque to every modelled property, the
payload kept as a string tag. -/
structure Item where
  id : String
  priority : Nat
  originalPriority : Nat
  data : String
  enqueuedAt : ℚ
  startedAt : Option ℚ := none
  status : Status := Status.pending
  retryCount : Nat := 0
  lastError : Option String := none
  nextRetryAt : Option ℚ := none
  leaseExpiresAt : Option ℚ := none
deriving DecidableEq

/-- qqms_v2.DLQItem. -/
structure DLQItem where
  id : String
  priority : Nat
  data : String
  enqueuedAt : ℚ
  failedAt : ℚ
  retryCount : Nat
  lastError : String
deriving DecidableEq

/-- In-memory scheduler state: the five priority deques (index =
priority value; the Python dict is keyed by all five priorities), the
ids in the processing map (the map shares the item objects with the
deques, so item fields live in the deques and the map holds ids), and
the DLQ. -/
structure QState where
  queues : List (List Item)
  processingIds : List String
  dlq : List DLQItem
  totalRetries : Nat := 0
  totalProcessed : Nat := 0
deriving DecidableEq

/-- Every item in every priority deque. -/
def allItems (qs : List (List Item)) : List Item := qs.flatten

/-- Append an item to the deque of its priority. -/
def appendAt : List (List Item) → Nat → Item → List (List Item)
  | [], _, _ => []
  | q :: qs, 0, it => (q ++ [it]) :: qs
  | q :: qs, n + 1, it => q :: appendAt qs n it

/-- In-place mutation of the (unique) item with the given id, as seen
through the shared object references. -/
def updateItemInQueues (qs : List (List Item)) (id : String) (it2 : Item) :
    List (List Item) :=
  qs.map (fun q => q.map (fun x => if x.id = id then it2 else x))

/-- queue.remove(item): drop the item with the given id. -/
def removeItemFromQueues (qs : List (List Item)) (id : String) : List (List Item) :=
  qs.map (fun q => q.filter (fun x => !(x.id == id)))

/-- Read an item through its processing-map reference. -/
def findItemById (qs : List (List Item)) (id : String) : Option Item :=
  (allItems qs).find? (fun x => x.id == id)

/-- Sum of the five deque lengths. -/
def queueTotal (st : QState) : Nat := (st.queues.map List.length).sum

/-- QQMSv2._get_retry_delay: base * 2 ** retry_count, capped. -/
def getRetryDelay (cfg : QQMSConfig) (retryCount : Nat) : ℚ :=
  min (cfg.baseRetryDelayMs * 2 ^ retryCount) cfg.maxRetryDelayMs

/-- The DLQ trim loop: pop from the front while over the size bound,
i.e. keep the newest dlqMaxSize items. -/
def trimDlq (maxSize : Nat) (l : List DLQItem) : List DLQItem :=
  l.drop (l.length - maxSize)

/-- Outcome of QQMSv2.nack. -/
inductive NackResult where
  | retry
  | dlq
  | notFound
deriving DecidableEq

/-- QQMSv2._nack_item: bump retry_count; at max_retries move the item
to the DLQ (removing it from its deque and trimming the DLQ),
otherwise schedule the retry with _get_retry_delay of the incremented
count and return the item to pending. -/
def nackItem (cfg : QQMSConfig) (now : ℚ) (err : String) (it : Item) (st : QState) :
    NackResult × QState :=
  let rc := it.retryCount + 1
  let st0 := { st with totalRetries := st.totalRetries + 1 }
  if cfg.maxRetries ≤ rc then
    let d : DLQItem :=
      { id := it.id
        priority := it.originalPriority
        data := it.data
        enqueuedAt := it.enqueuedAt
        failedAt := now
        retryCount := rc
        lastError := err }
    (NackResult.dlq,
     { st0 with
       queues := removeItemFromQueues st0.queues it.id
       dlq := trimDlq cfg.dlqMaxSize (st0.dlq ++ [d]) })
  else
    let it2 := { it with
                 retryCount := rc
                 lastError := some err
                 status := Status.pending
                 nextRetryAt := some (now + getRetryDelay cfg rc / 1000)
                 startedAt := none
                 leaseExpiresAt := none }
    (NackResult.retry, { st0 with queues := updateItemInQueues st0.queues it.id it2 })

/-- QQMSv2.nack for an id held in the in-memory processing map: pop it
and run _nack_item. The overflow fallback for unknown ids lives in
overflowNack below. -/
def nackOp (cfg : QQMSConfig) (now : ℚ) (id : String) (err : String) (st : QState) :
    NackResult × QState :=
  if st.processingIds.contains id then
    let st1 := { st with processingIds := st.processingIds.filter (fun x => !(x == id)) }
    match findItemById st1.queues id with
    | some it => nackItem cfg now err it st1
    | none => (NackResult.notFound, st1)
  else (NackResult.notFound, st)

/-- QQMSv2.ack: pop from processing, drop from the deque, count. -/
def ackOp (id : String) (st : QState) : Bool × QState :=
  if st.processingIds.contains id then
    (true,
     { st with
       processingIds := st.processingIds.filter (fun x => !(x == id))
       queues := removeItemFromQueues st.queues id
       totalProcessed := st.totalProcessed + 1 })
  else (false, st)

/-- A pending item whose retry time has passed, as in the dequeue scan:
"if item.next_retry_at and now < item.next_retry_at: continue". -/
def eligible (now : ℚ) (it : Item) : Bool :=
  if it.status = Status.pending then
    match it.nextRetryAt with
    | some t => if now < t then false else true
    | none => true
  else false

/-- The dequeue scan: highest priority deque first, oldest first. -/
def findFirstEligible (now : ℚ) : List (List Item) → Option Item
  | [] => none
  | q :: qs =>
    match q.find? (eligible now) with
    | some it => some it
    | none => findFirstEligible now qs

/-- QQMSv2.dequeue (the non-waiting core): claim the first eligible
pending item, marking it processing with a fresh lease. -/
def dequeueOp (cfg : QQMSConfig) (now : ℚ) (st : QState) : Option Item × QState :=
  match findFirstEligible now st.queues with
  | none => (none, st)
  | some it =>
    let it2 := { it with
                 status := Status.processing
                 startedAt := some now
                 leaseExpiresAt := some (now + cfg.leaseTimeoutMs / 1000) }
    (some it2,
     { st with
       queues := updateItemInQueues st.queues it.id it2
       processingIds := st.processingIds ++ [it.id] })

/-- Admission outcome of QQMSv2.enqueue. -/
inductive EnqueueResult where
  | queued
  | toOverflow
  | rejectedOverloaded
  | rejectedFull
deriving DecidableEq

/-- QQMSv2.enqueue: reject outright above the CPU reject threshold with
no overflow, spill to overflow above either CPU threshold when
overflow exists, spill or reject when the memory queues are full,
otherwise append to the priority deque. The overflow insert itself is
durable external state, outside QState. -/
def qenqueue (cfg : QQMSConfig) (cpu : ℚ) (hasOverflow : Bool) (now : ℚ) (id : String)
    (priority : Nat) (data : String) (st : QState) : EnqueueResult × QState :=
  let it : Item :=
    { id := id
      priority := priority
      originalPriority := priority
      data := data
      enqueuedAt := now }
  if cfg.cpuRejectThreshold < cpu then
    if hasOverflow then (EnqueueResult.toOverflow, st)
    else (EnqueueResult.rejectedOverloaded, st)
  else if cfg.cpuQueueThreshold < cpu ∧ hasOverflow = true then (EnqueueResult.toOverflow, st)
  else if cfg.maxQueueSize ≤ queueTotal st then
    if hasOverflow then (EnqueueResult.toOverflow, st)
    else (EnqueueResult.rejectedFull, st)
  else (EnqueueResult.queued, { st with queues := appendAt st.queues priority it })

/-- QQMSv2._check_lease_timeouts: NACK every processing item whose
lease has expired ("if item.lease_expires_at and now >
item.lease_expires_at"). -/
def checkLeaseTimeouts (cfg : QQMSConfig) (now : ℚ) (st : QState) : QState :=
  let expired := st.processingIds.filter (fun id =>
    match findItemById st.queues id with
    | some it =>
      match it.leaseExpiresAt with
      | some t => if t < now then true else false
      | none => false
    | none => false)
  expired.foldl (fun s id =>
    match findItemById s.queues id with
    | some it =>
        (nackItem cfg now ("Lease timeout - operation took too long") it
          { s with processingIds := s.processingIds.filter (fun x => !(x == id)) }).2
    | none => s) st

/-- The in-memory operations quantified over in the retry-count
invariant. -/
inductive MemOp where
  | enq (cpu : ℚ) (hasOverflow : Bool) (id : String) (priority : Nat) (data : String)
  | deq
  | ackId (id : String)
  | nackId (id : String) (err : String)
  | lease

/-- One scheduler step. -/
def applyOp (cfg : QQMSConfig) (now : ℚ) (op : MemOp) (st : QState) : QState :=
  match op with
  | MemOp.enq cpu hasOverflow id priority data =>
      (qenqueue cfg cpu hasOverflow now id priority data st).2
  | MemOp.deq => (dequeueOp cfg now st).2
  | MemOp.ackId id => (ackOp id st).2
  | MemOp.nackId id err => (nackOp cfg now id err st).2
  | MemOp.lease => checkLeaseTimeouts cfg now st

/-- The retry-count invariant of the in-memory queue: every item still
in a deque is strictly below max_retries, and every DLQ entry is at or
above it. -/
def memInv (cfg : QQMSConfig) (st : QState) : Prop :=
  (∀ it ∈ allItems st.queues, it.retryCount < cfg.maxRetries) ∧
  (∀ d ∈ st.dlq, cfg.maxRetries ≤ d.retryCount)

instance (cfg : QQMSConfig) (st : QState) : Decidable (memInv cfg st) := by
  unfold memInv
  infer_instance

/-- A row of the PostgreSQL overflow queue (qqms_overflow_queue). -/
structure OverflowRow where
  id : String
  priority : Nat
  originalPriority : Nat
  data : String
  enqueuedAt : ℚ
  status : Status := Status.pending
  retryCount : Nat := 0
  lastError : Option String := none
  nextRetryAt : Option ℚ := none
deriving DecidableEq

/-- OverflowQueue.nack: the SQL UPDATE returns the row to pending and
increments retry_count with no max_retries check. -/
def overflowNack (now : ℚ) (err : String) (retryDelayMs : ℚ) (r : OverflowRow) :
    OverflowRow :=
  { r with
    status := Status.pending
    retryCount := r.retryCount + 1
    lastError := some err
    nextRetryAt := some (now + retryDelayMs / 1000) }

/-! ## Concrete instances used in witnesses and counterexamples -/

/-- Zeroed counters. -/
def stats0 : Stats := ⟨0, 0, 0, 0, 0, 0⟩

/-- A fresh cache with the source defaults (500 MB, RAM tier of 100). -/
def emptyCache : CacheState :=
  { ramCache := []
    ramCacheSize := 100
    diskFiles := []
    index := []
    maxBytes := 500 * 1024 * 1024
    hits := 0
    misses := 0
    diskWrites := 0 }

/-- A trained PCA state with no fitted models. -/
def emptyPCA : PCAState :=
  { isTrained := true, minSamples := 100, trainingBuffer := [], pcaModels := [] }

/-- A fitted 256-component PCA model (opaque in the source; any function
returning 256 components exhibits the behaviour). -/
def cexModel : Vec → Vec := fun _ => List.replicate 256 (1 : ℚ)

/-- A PCA state trained only for 256 components, as after _train on a
384-dimensional native model (384, 512, ... are skipped because
n_components must stay below n_features). -/
def cexPCA : PCAState :=
  { isTrained := true, minSamples := 100, trainingBuffer := [], pcaModels := [(256, cexModel)] }

/-- A fitted model for exactly 300 components. -/
def modelExact : Vec → Vec := fun _ => List.replicate 300 (3 : ℚ)

/-- A PCA state holding a model for exactly 300 components. -/
def pcaExact : PCAState :=
  { isTrained := true, minSamples := 100, trainingBuffer := [], pcaModels := [(300, modelExact)] }

/-- A 384-dimensional native vector. -/
def cexVec : Vec := List.replicate 384 (2 : ℚ)

/-- Concrete opaque machinery for the dimension-mismatch scenario: a
384-dimensional encoder and a norm that reports 1 (its value only
gates the division). -/
def cexParams : Params :=
  { encode := fun _ => List.replicate 384 (1 : ℚ)
    l2norm := fun _ => 1
    textHash := fun t _ => t
    expand := fun v _ _ => v
    train := id
    dbTargetDims := 300 }

/-- An embedder whose oracle target is 300 while only a 256-component
PCA model is cached. -/
def cexEmbedder : EmbedderState :=
  { dimTarget := 300
    nativeDims := 384
    pca := cexPCA
    pcaEnabled := true
    expanderEnabled := true
    diskCacheEnabled := false
    throttlerEnabled := false
    cache := emptyCache
    stats := stats0
    encoderCalls := 0
    throttleCalls := []
    batchThrottleCalls := []
    lastBatchPriority := none }

/-- A plain single-embed request. -/
def reqC1 : Request := { text := some ("demo") }

/-- Concrete opaque machinery for the cache and batch scenarios: a
two-dimensional encoder with norm 5 on its output. -/
def p7 : Params :=
  { encode := fun _ => [3, 4]
    l2norm := fun _ => 5
    textHash := fun t _ => t
    expand := fun v _ _ => v
    train := id
    dbTargetDims := 2 }

/-- An embedder at target dimension 2 with an empty enabled cache. -/
def st7 : EmbedderState :=
  { dimTarget := 2
    nativeDims := 2
    pca := emptyPCA
    pcaEnabled := true
    expanderEnabled := true
    diskCacheEnabled := true
    throttlerEnabled := true
    cache := emptyCache
    stats := stats0
    encoderCalls := 0
    throttleCalls := []
    batchThrottleCalls := []
    lastBatchPriority := none }

/-- An embedder at target dimension 2 with the throttler on and the
disk cache off. -/
def st8 : EmbedderState :=
  { dimTarget := 2
    nativeDims := 2
    pca := emptyPCA
    pcaEnabled := true
    expanderEnabled := true
    diskCacheEnabled := false
    throttlerEnabled := true
    cache := emptyCache
    stats := stats0
    encoderCalls := 0
    throttleCalls := []
    batchThrottleCalls := []
    lastBatchPriority := none }

/-- A batch request that omits the priority field. -/
def req8 : Request := { texts := some [("a")] }

/-- A set_dimension request with the dimension field missing. -/
def reqBadDim : Request := { reqType := some ("set_dimension") }

/-- An embedder whose enabled cache already holds a RAM entry for the
text "a" at dimension 2. -/
def st9 : EmbedderState :=
  { dimTarget := 2
    nativeDims := 2
    pca := emptyPCA
    pcaEnabled := true
    expanderEnabled := true
    diskCacheEnabled := true
    throttlerEnabled := true
    cache := { emptyCache with ramCache := [(("a"), [7, 24])] }
    stats := stats0
    encoderCalls := 0
    throttleCalls := []
    batchThrottleCalls := []
    lastBatchPriority := none }

/-- The source-default scheduler configuration. -/
def qqmsDefault : QQMSConfig := {}

/-- A scheduler configuration with a tiny memory queue, to exercise the
saturation path on small states. -/
def cfgSmallQueue : QQMSConfig := { maxQueueSize := 2 }

/-- A processing item on its first attempt. -/
def itemA : Item :=
  { id := ("a")
    priority := 2
    originalPriority := 2
    data := ("payload")
    enqueuedAt := 0
    startedAt := some 0
    status := Status.processing
    leaseExpiresAt := some 60 }

/-- A pending item. -/
def itemB : Item :=
  { id := ("b")
    priority := 1
    originalPriority := 1
    data := ("payload")
    enqueuedAt := 0 }

/-- A queue state holding itemA in the MEDIUM deque with its id leased
out in the processing map. -/
def stqA : QState :=
  { queues := [[], [], [itemA], [], []]
    processingIds := [("a")]
    dlq := [] }

/-- A queue state holding two pending items (a full queue under
cfgSmallQueue). -/
def stqTwo : QState :=
  { queues := [[], [itemB], [itemA], [], []]
    processingIds := []
    dlq := [] }

/-- A freshly spilled overflow row. -/
def rowA : OverflowRow :=
  { id := ("r")
    priority := 2
    originalPriority := 2
    data := ("payload")
    enqueuedAt := 0 }

/-- A one-entry disk-cache state near its 10-byte capacity. -/
def st6 : CacheState :=
  { ramCache := []
    ramCacheSize := 100
    diskFiles := [(("old"), [1])]
    index := [(("old"), ⟨1, 8, 0, 0⟩)]
    maxBytes := 10
    hits := 0
    misses := 0
    diskWrites := 0 }

/-! ## Helper lemmas: association lists -/

theorem lookup_append {α : Type u} {β : Type v} [BEq α] (l1 l2 : List (α × β)) (k : α) :
    (l1 ++ l2).lookup k =
      match l1.lookup k with
      | some v => some v
      | none => l2.lookup k := by
  induction l1 with
  | nil => simp [List.lookup]
  | cons q l ih =>
    rcases q with ⟨a, b⟩
    by_cases h : (k == a) = true
    · simp [List.lookup, h]
    · simp only [Bool.not_eq_true] at h
      simp [List.lookup, h, ih]

theorem lookup_eraseKey_self (l : List (String × α)) (k : String) :
    (eraseKey l k).lookup k = none := by
  induction l with
  | nil => simp [eraseKey, List.lookup]
  | cons q l ih =>
    rcases q with ⟨a, b⟩
    by_cases h : (a == k) = true
    · simp [eraseKey, h] at ih ⊢
      exact ih
    · simp only [Bool.not_eq_true] at h
      have h2 : (k == a) = false := by
        rw [beq_eq_false_iff_ne] at h ⊢
        exact fun hk => h hk.symm
      simp [eraseKey, h, List.lookup, h2]
      simpa [eraseKey, h] using ih

theorem lookup_eraseKey_append (l : List (String × α)) (k : String) (v : α) :
    (eraseKey l k ++ [(k, v)]).lookup k = some v := by
  rw [lookup_append, lookup_eraseKey_self]
  simp [List.lookup]

theorem lookup_updateKey_self (l : List (String × α)) (k : String) (v : α)
    (hs : (l.lookup k).isSome = true) :
    (updateKey k v l).lookup k = some v := by
  induction l with
  | nil => simp [List.lookup] at hs
  | cons q l ih =>
    rcases q with ⟨a, b⟩
    by_cases ha : a = k
    · simp [updateKey, ha, List.lookup]
    · have hb : (k == a) = false := by
        rw [beq_eq_false_iff_ne]
        exact fun hk => ha hk.symm
      simp only [List.lookup, hb] at hs
      simp [updateKey, ha, List.lookup, hb]
      exact ih hs

theorem lookup_setKey_self (l : List (String × α)) (k : String) (v : α) :
    (setKey l k v).lookup k = some v := by
  unfold setKey
  by_cases hs : (l.lookup k).isSome = true
  · rw [if_pos hs]
    exact lookup_updateKey_self l k v hs
  · rw [if_neg hs]
    rw [lookup_append]
    have hnone : l.lookup k = none := by
      cases hl : l.lookup k
      · rfl
      · rw [hl] at hs
        simp at hs
    rw [hnone]
    simp [List.lookup]

theorem lookup_none_of_keys_lt {β : Type} (l : List (Nat × β)) (k : Nat)
    (h : ∀ q ∈ l, k < q.1) : l.lookup k = none := by
  induction l with
  | nil => simp [List.lookup]
  | cons q l ih =>
    have hq : k < q.1 := h q (by simp)
    have hb : (k == q.1) = false := by
      rw [beq_eq_false_iff_ne]
      omega
    rcases q with ⟨a, b⟩
    simp only [List.lookup, hb]
    exact ih (fun x hx => h x (by simp [hx]))

theorem lookup_map_pair {β γ : Type} [BEq γ] [LawfulBEq γ]
    (l : List (γ × String)) (F : γ × String → β) (k : γ) :
    ((l.map (fun q => (q.1, F q))).lookup k) = (l.lookup k).map (fun t => F (k, t)) := by
  induction l with
  | nil => simp [List.lookup]
  | cons q l ih =>
    rcases q with ⟨a, b⟩
    by_cases h : (k == a) = true
    · have : k = a := eq_of_beq h
      subst this
      simp [List.lookup, h]
    · simp only [Bool.not_eq_true] at h
      simp [List.lookup, h, ih]

theorem lookup_some_of_mem_keys {α : Type} (l : List (Int × α)) (k : Int)
    (h : k ∈ l.map Prod.fst) : ∃ b, l.lookup k = some b := by
  induction l with
  | nil => simp at h
  | cons q l ih =>
    rcases q with ⟨a, b⟩
    by_cases hk : (k == a) = true
    · exact ⟨b, by simp [List.lookup, hk]⟩
    · simp only [Bool.not_eq_true] at hk
      have hne : k ≠ a := by
        rw [beq_eq_false_iff_ne] at hk
        exact hk
      simp only [List.map, List.mem_cons] at h
      rcases h with h | h
      · exact absurd h hne
      · rcases ih h with ⟨c, hc⟩
        exact ⟨c, by simp [List.lookup, hk, hc]⟩

theorem zip_map_self {α β : Type} (l : List α) (g : α → β) :
    l.zip (l.map g) = l.map (fun a => (a, g a)) := by
  induction l with
  | nil => rfl
  | cons x xs ih => simp [ih]

/-! ## Helper lemmas: sorting and the eviction loop -/

theorem mem_insertSorted (y x : Int) (l : List Int) :
    y ∈ insertSorted x l ↔ y = x ∨ y ∈ l := by
  induction l with
  | nil => simp [insertSorted]
  | cons a l ih =>
    by_cases h : x ≤ a
    · simp [insertSorted, h]
    · simp [insertSorted, h, ih]
      tauto

theorem mem_sortInts (y : Int) (l : List Int) : y ∈ sortInts l ↔ y ∈ l := by
  induction l with
  | nil => simp [sortInts]
  | cons a l ih =>
    simp only [sortInts, List.foldr] at ih ⊢
    rw [mem_insertSorted, ih, List.mem_cons]

theorem length_insertSorted (x : Int) (l : List Int) :
    (insertSorted x l).length = l.length + 1 := by
  induction l with
  | nil => rfl
  | cons a l ih =>
    by_cases h : x ≤ a
    · simp [insertSorted, h]
    · simp [insertSorted, h, ih]

theorem sortInts_ne_nil (l : List Int) (h : l ≠ []) : sortInts l ≠ [] := by
  cases l with
  | nil => exact absurd rfl h
  | cons a l =>
    intro hc
    have := congrArg List.length hc
    simp only [sortInts, List.foldr, length_insertSorted, List.length_nil] at this
    omega

theorem closest_foldl_spec (T : Int) (ks : List Int) (k : Int) :
    (ks.foldl (fun best x => if |x - T| < |best - T| then x else best) k = k ∨
     ks.foldl (fun best x => if |x - T| < |best - T| then x else best) k ∈ ks) ∧
    |ks.foldl (fun best x => if |x - T| < |best - T| then x else best) k - T| ≤ |k - T| ∧
    (∀ x ∈ ks, |ks.foldl (fun best x => if |x - T| < |best - T| then x else best) k - T|
        ≤ |x - T|) := by
  induction ks generalizing k with
  | nil => simp
  | cons y ys ih =>
    by_cases h : |y - T| < |k - T|
    · rcases ih y with ⟨hmem, hle, hall⟩
      refine ⟨?_, ?_, ?_⟩
      · simp only [List.foldl, h, if_true]
        rcases hmem with hmem | hmem
        · right
          simp [hmem]
        · right
          simp [hmem]
      · simp only [List.foldl, h, if_true]
        exact le_of_lt (lt_of_le_of_lt hle h)
      · intro x hx
        simp only [List.foldl, h, if_true]
        rcases List.mem_cons.mp hx with hx | hx
        · subst hx
          exact hle
        · exact hall x hx
    · rcases ih k with ⟨hmem, hle, hall⟩
      refine ⟨?_, ?_, ?_⟩
      · simp only [List.foldl, h, if_false]
        rcases hmem with hmem | hmem
        · left
          exact hmem
        · right
          simp [hmem]
      · simp only [List.foldl, h, if_false]
        exact hle
      · intro x hx
        simp only [List.foldl, h, if_false]
        rcases List.mem_cons.mp hx with hx | hx
        · subst hx
          exact le_trans hle (le_of_not_lt h)
        · exact hall x hx

theorem closestKey_spec (T : Int) (l : List Int) (h : l ≠ []) :
    ∃ c, closestKey T l = some c ∧ c ∈ l ∧ ∀ x ∈ l, |c - T| ≤ |x - T| := by
  cases l with
  | nil => exact absurd rfl h
  | cons k ks =>
    rcases closest_foldl_spec T ks k with ⟨hmem, hle, hall⟩
    refine ⟨_, rfl, ?_, ?_⟩
    · rcases hmem with hmem | hmem
      · rw [hmem]
        simp
      · simp [hmem]
    · intro x hx
      rcases List.mem_cons.mp hx with hx | hx
      · subst hx
        exact hle
      · exact hall x hx

theorem evictFrom_total (maxB : Nat) (l : List (String × IndexEntry)) :
    5 * indexTotalSize (evictFrom maxB l).1 ≤ 4 * maxB := by
  induction l with
  | nil => simp [evictFrom, indexTotalSize]
  | cons e rest ih =>
    by_cases h : 5 * indexTotalSize (e :: rest) ≤ 4 * maxB
    · simp [evictFrom, h]
    · simpa [evictFrom, h] using ih

theorem evictFrom_drop (maxB : Nat) (l : List (String × IndexEntry)) :
    ∃ n, (evictFrom maxB l).1 = l.drop n := by
  induction l with
  | nil => exact ⟨0, rfl⟩
  | cons e rest ih =>
    by_cases h : 5 * indexTotalSize (e :: rest) ≤ 4 * maxB
    · exact ⟨0, by simp [evictFrom, h]⟩
    · rcases ih with ⟨n, hn⟩
      exact ⟨n + 1, by simp [evictFrom, h, hn]⟩

/-! ## Helper lemmas: the disk cache -/

theorem lookup_addToRam_self (rc : List (String × Vec)) (size : Nat) (k : String) (v : Vec) :
    (addToRam rc size k v).lookup k = some v := by
  unfold addToRam
  exact lookup_setKey_self _ k v

theorem maybeEvict_fields (st : CacheState) :
    (maybeEvict st).ramCache = st.ramCache ∧
    (maybeEvict st).ramCacheSize = st.ramCacheSize ∧
    (maybeEvict st).maxBytes = st.maxBytes := by
  unfold maybeEvict
  split <;> simp

theorem cachePut_ram_lookup (p : Params) (now : ℚ) (text : String) (dims : Int) (emb : Vec)
    (st : CacheState) (htext : strBlank text = false) (hemb : emb.length ≠ 0)
    (hdims : ¬ dims ≤ 0) :
    (cachePut p now text dims emb st).ramCache.lookup (p.textHash text dims) = some emb := by
  unfold cachePut
  rw [if_neg (by simp [htext]), if_neg hemb, if_neg hdims]
  rw [(maybeEvict_fields _).1]
  exact lookup_addToRam_self _ _ _ _

theorem cachePut_ramCacheSize (p : Params) (now : ℚ) (text : String) (dims : Int)
    (emb : Vec) (st : CacheState) :
    (cachePut p now text dims emb st).ramCacheSize = st.ramCacheSize := by
  unfold cachePut
  split
  · rfl
  split
  · rfl
  split
  · rfl
  rw [(maybeEvict_fields _).2.1]

theorem cacheGet_ram_hit_eq (p : Params) (now : ℚ) (text : String) (dims : Int)
    (st : CacheState) (v : Vec) (htext : strBlank text = false) (hdims : ¬ dims ≤ 0)
    (hlook : st.ramCache.lookup (p.textHash text dims) = some v) :
    cacheGet p now text dims st =
      (some v, { st with
                 hits := st.hits + 1
                 ramCache := eraseKey st.ramCache (p.textHash text dims) ++
                   [(p.textHash text dims, v)] }) := by
  unfold cacheGet
  rw [if_neg (by simp [htext]), if_neg hdims]
  simp only [hlook]

theorem cacheGet_hit_ram_lookup (p : Params) (now : ℚ) (text : String) (dims : Int)
    (st : CacheState) (v : Vec) (htext : strBlank text = false) (hdims : ¬ dims ≤ 0)
    (hhit : (cacheGet p now text dims st).1 = some v) :
    (cacheGet p now text dims st).2.ramCache.lookup (p.textHash text dims) = some v := by
  unfold cacheGet at hhit ⊢
  rw [if_neg (by simp [htext]), if_neg hdims] at hhit ⊢
  cases hram : st.ramCache.lookup (p.textHash text dims) with
  | some w =>
    simp only [hram] at hhit ⊢
    simp only [Option.some.injEq] at hhit
    subst hhit
    exact lookup_eraseKey_append _ _ _
  | none =>
    simp only [hram] at hhit ⊢
    cases hdisk : st.diskFiles.lookup (p.textHash text dims) with
    | some w =>
      simp only [hdisk] at hhit ⊢
      by_cases hlen : (w.length : Int) ≠ dims
      · rw [if_pos hlen] at hhit
        simp at hhit
      · rw [if_neg hlen] at hhit ⊢
        simp only [Option.some.injEq] at hhit
        subst hhit
        exact lookup_addToRam_self _ _ _ _
    | none =>
      simp only [hdisk] at hhit
      simp at hhit

theorem cacheGet_ramCacheSize (p : Params) (now : ℚ) (text : String) (dims : Int)
    (st : CacheState) :
    (cacheGet p now text dims st).2.ramCacheSize = st.ramCacheSize := by
  unfold cacheGet
  split
  · rfl
  split
  · rfl
  cases hram : st.ramCache.lookup (p.textHash text dims) with
  | some w => simp [hram]
  | none =>
    cases hdisk : st.diskFiles.lookup (p.textHash text dims) with
    | some w =>
      simp only [hram, hdisk]
      split <;> simp [addToRam]
    | none => simp [hram, hdisk]

/-! ## Helper lemmas: the embedding pipeline state -/

theorem transformDims_snd (p : Params) (st : EmbedderState) (emb : Vec) (targetDims : Int)
    (text : String) :
    (transformDims p st emb targetDims text).2.pca = st.pca ∧
    (transformDims p st emb targetDims text).2.pcaEnabled = st.pcaEnabled ∧
    (transformDims p st emb targetDims text).2.expanderEnabled = st.expanderEnabled ∧
    (transformDims p st emb targetDims text).2.diskCacheEnabled = st.diskCacheEnabled ∧
    (transformDims p st emb targetDims text).2.throttlerEnabled = st.throttlerEnabled ∧
    (transformDims p st emb targetDims text).2.cache = st.cache ∧
    (transformDims p st emb targetDims text).2.dimTarget = st.dimTarget ∧
    (transformDims p st emb targetDims text).2.encoderCalls = st.encoderCalls ∧
    (transformDims p st emb targetDims text).2.lastBatchPriority = st.lastBatchPriority := by
  unfold transformDims
  split
  · simp
  split
  all_goals
    simp only []
    split <;> simp

theorem transformDims_fst_congr (p : Params) (st st2 : EmbedderState) (emb : Vec)
    (targetDims : Int) (text : String) (hpca : st.pca = st2.pca)
    (h1 : st.pcaEnabled = st2.pcaEnabled) (h2 : st.expanderEnabled = st2.expanderEnabled) :
    (transformDims p st emb targetDims text).1 =
      (transformDims p st2 emb targetDims text).1 := by
  unfold transformDims
  by_cases hl : (emb.length : Int) = targetDims
  · simp [hl]
  · by_cases hc : targetDims < (emb.length : Int)
    · simp only [if_neg hl, if_pos hc]
      by_cases hp : st.pcaEnabled
      · simp [hp, ← h1, hpca]
      · simp [hp, ← h1]
    · simp only [if_neg hl, if_neg hc]
      by_cases he : st.expanderEnabled
      · simp [he, ← h2]
      · simp [he, ← h2]

theorem effectiveTarget_congr (st st2 : EmbedderState) (fd : Option Int)
    (h : st.dimTarget = st2.dimTarget) : effectiveTarget st fd = effectiveTarget st2 fd := by
  unfold effectiveTarget
  cases fd with
  | none => exact h
  | some d => by_cases hd : d = 0 <;> simp [hd, h]

theorem transformDims_dimTarget (p : Params) (st : EmbedderState) (emb : Vec)
    (targetDims : Int) (text : String) :
    (transformDims p st emb targetDims text).2.dimTarget = st.dimTarget :=
  (transformDims_snd p st emb targetDims text).2.2.2.2.2.2.1

theorem transformDims_diskCacheEnabled (p : Params) (st : EmbedderState) (emb : Vec)
    (targetDims : Int) (text : String) :
    (transformDims p st emb targetDims text).2.diskCacheEnabled = st.diskCacheEnabled :=
  (transformDims_snd p st emb targetDims text).2.2.2.1

theorem transformDims_cache (p : Params) (st : EmbedderState) (emb : Vec)
    (targetDims : Int) (text : String) :
    (transformDims p st emb targetDims text).2.cache = st.cache :=
  (transformDims_snd p st emb targetDims text).2.2.2.2.2.1

theorem transformDims_pca (p : Params) (st : EmbedderState) (emb : Vec)
    (targetDims : Int) (text : String) :
    (transformDims p st emb targetDims text).2.pca = st.pca :=
  (transformDims_snd p st emb targetDims text).1

theorem transformDims_pcaEnabled (p : Params) (st : EmbedderState) (emb : Vec)
    (targetDims : Int) (text : String) :
    (transformDims p st emb targetDims text).2.pcaEnabled = st.pcaEnabled :=
  (transformDims_snd p st emb targetDims text).2.1

theorem transformDims_expanderEnabled (p : Params) (st : EmbedderState) (emb : Vec)
    (targetDims : Int) (text : String) :
    (transformDims p st emb targetDims text).2.expanderEnabled = st.expanderEnabled :=
  (transformDims_snd p st emb targetDims text).2.2.1

theorem transformDims_lastBatchPriority (p : Params) (st : EmbedderState) (emb : Vec)
    (targetDims : Int) (text : String) :
    (transformDims p st emb targetDims text).2.lastBatchPriority = st.lastBatchPriority :=
  (transformDims_snd p st emb targetDims text).2.2.2.2.2.2.2.2

theorem embedSingleCompute_fields (p : Params) (now : ℚ) (st : EmbedderState)
    (text : String) (target : Int) (priority : Priority) :
    (embedSingleCompute p now st text target priority).2.dimTarget = st.dimTarget ∧
    (embedSingleCompute p now st text target priority).2.diskCacheEnabled =
      st.diskCacheEnabled ∧
    (embedSingleCompute p now st text target priority).2.cache.ramCacheSize =
      st.cache.ramCacheSize := by
  refine ⟨?_, ?_, ?_⟩ <;>
    simp [embedSingleCompute, transformDims_dimTarget, transformDims_diskCacheEnabled,
      transformDims_cache, cachePut_ramCacheSize]
  split <;> simp [cachePut_ramCacheSize, transformDims_cache]

theorem embedSingleCompute_result_cache (p : Params) (now : ℚ) (st : EmbedderState)
    (text : String) (target : Int) (priority : Priority)
    (hdc : st.diskCacheEnabled = true) (htext : strBlank text = false)
    (hdims : ¬ target ≤ 0)
    (hv : (embedSingleCompute p now st text target priority).1 ≠ []) :
    (embedSingleCompute p now st text target priority).2.cache.ramCache.lookup
      (p.textHash text target) =
      some (embedSingleCompute p now st text target priority).1 := by
  simp only [embedSingleCompute, transformDims_diskCacheEnabled] at hv ⊢
  rw [hdc] at hv ⊢
  rw [if_pos rfl]
  apply cachePut_ram_lookup p now text target _ _ htext _ hdims
  simpa [List.length_eq_zero] using hv

theorem embedSingle_fields (p : Params) (now : ℚ) (st : EmbedderState) (text : String)
    (fd : Option Int) (priority : Priority) :
    (embedSingle p now st text fd priority).2.dimTarget = st.dimTarget ∧
    (embedSingle p now st text fd priority).2.diskCacheEnabled = st.diskCacheEnabled ∧
    (embedSingle p now st text fd priority).2.cache.ramCacheSize =
      st.cache.ramCacheSize := by
  unfold embedSingle
  by_cases hdc : st.diskCacheEnabled = true
  · simp only [hdc, if_true]
    rcases hget : cacheGet p now text (effectiveTarget st fd) st.cache with ⟨v?, c2⟩
    have hc2 : c2.ramCacheSize = st.cache.ramCacheSize := by
      have := cacheGet_ramCacheSize p now text (effectiveTarget st fd) st.cache
      rw [hget] at this
      exact this
    cases v? with
    | some v => simp [hc2]
    | none =>
      simp only []
      have h := embedSingleCompute_fields p now
        { st with
          cache := c2
          stats := { st.stats with diskCacheMisses := st.stats.diskCacheMisses + 1 } }
        text (effectiveTarget st fd) priority
      simp only at h
      rw [hdc] at h
      exact ⟨h.1, h.2.1, by rw [h.2.2]; exact hc2⟩
  · have hdc2 : st.diskCacheEnabled = false := by simpa using hdc
    simp only [hdc2, Bool.false_eq_true, if_false]
    have h := embedSingleCompute_fields p now st text (effectiveTarget st fd) priority
    exact ⟨h.1, by rw [h.2.1, hdc2], h.2.2⟩

theorem embedSingle_ram (p : Params) (now : ℚ) (st : EmbedderState) (text : String)
    (fd : Option Int) (priority : Priority)
    (hdc : st.diskCacheEnabled = true) (htext : strBlank text = false)
    (hdims : ¬ effectiveTarget st fd ≤ 0)
    (hv : (embedSingle p now st text fd priority).1 ≠ []) :
    (embedSingle p now st text fd priority).2.cache.ramCache.lookup
      (p.textHash text (effectiveTarget st fd)) =
      some (embedSingle p now st text fd priority).1 := by
  unfold embedSingle at hv ⊢
  simp only [hdc, if_true] at hv ⊢
  rcases hget : cacheGet p now text (effectiveTarget st fd) st.cache with ⟨v?, c2⟩
  cases v? with
  | some v =>
    simp only []
    have h1 : (cacheGet p now text (effectiveTarget st fd) st.cache).1 = some v := by
      rw [hget]
    have h2 := cacheGet_hit_ram_lookup p now text (effectiveTarget st fd) st.cache v
      htext hdims h1
    rw [hget] at h2
    simpa using h2
  | none =>
    rw [hget] at hv
    simp only [] at hv ⊢
    exact embedSingleCompute_result_cache p now _ text (effectiveTarget st fd) priority
      rfl htext hdims hv

/-! ## Claim theorems -/

/-- C7: with the disk cache enabled and a non-empty, non-whitespace
text, embedding the same text twice at the same target dimension
returns identical vectors, and the second call is a cache hit: the
cache-hit counters increment and the encoder is not invoked again. -/
theorem c7_cache_roundtrip (p : Params) (now now2 : ℚ) (st : EmbedderState) (text : String)
    (fd : Option Int) (pr1 pr2 : Priority)
    (hdc : st.diskCacheEnabled = true) (htext : strBlank text = false)
    (hdims : 0 < effectiveTarget st fd)
    (hv : (embedSingle p now st text fd pr1).1 ≠ []) :
    (embedSingle p now2 (embedSingle p now st text fd pr1).2 text fd pr2).1 =
      (embedSingle p now st text fd pr1).1 ∧
    (embedSingle p now2 (embedSingle p now st text fd pr1).2 text fd pr2).2.encoderCalls =
      (embedSingle p now st text fd pr1).2.encoderCalls ∧
    (embedSingle p now2 (embedSingle p now st text fd pr1).2 text fd pr2).2.cache.hits =
      (embedSingle p now st text fd pr1).2.cache.hits + 1 ∧
    (embedSingle p now2 (embedSingle p now st text fd pr1).2 text fd
        pr2).2.stats.diskCacheHits =
      (embedSingle p now st text fd pr1).2.stats.diskCacheHits + 1 := by
  have hle : ¬ effectiveTarget st fd ≤ 0 := by omega
  have hfields := embedSingle_fields p now st text fd pr1
  have hram := embedSingle_ram p now st text fd pr1 hdc htext hle hv
  rcases hE : embedSingle p now st text fd pr1 with ⟨v1, st1⟩
  rw [hE] at hfields hram
  have htarget : effectiveTarget st1 fd = effectiveTarget st fd :=
    effectiveTarget_congr _ _ _ hfields.1
  have hdc1 : st1.diskCacheEnabled = true := by
    rw [hfields.2.1]
    exact hdc
  unfold embedSingle
  rw [htarget, hdc1, if_pos rfl,
    cacheGet_ram_hit_eq p now2 text (effectiveTarget st fd) st1.cache v1 htext hle hram]
  exact ⟨rfl, rfl, rfl, rfl⟩

/-- C7 witness: the round trip evaluated on a concrete embedder. -/
theorem c7_witness :
    strBlank ("hi") = false ∧
    0 < effectiveTarget st7 none ∧
    (embedSingle p7 0 st7 ("hi") none Priority.medium).1 ≠ [] ∧
    (embedSingle p7 1 (embedSingle p7 0 st7 ("hi") none Priority.medium).2 ("hi") none
        Priority.medium).1 =
      (embedSingle p7 0 st7 ("hi") none Priority.medium).1 :=
  ⟨by decide, by decide, by decide,
    (c7_cache_roundtrip p7 0 1 st7 ("hi") none Priority.medium Priority.medium rfl
      (by decide) (by decide) (by decide)).1⟩

/-- C10: a set_dimension request whose dimension field is missing, not
an integer, or not strictly positive yields an error response and
leaves the embedder state, in particular target_dims, unchanged. -/
theorem c10_set_dimension_atomic (p : Params) (now : ℚ) (req : Request) (st : EmbedderState)
    (htype : req.reqType = some ("set_dimension"))
    (hbad : req.dimension = none ∨ (∃ b, req.dimension = some (JDim.jnonint b)) ∨
      ∃ n, req.dimension = some (JDim.jint n) ∧ n ≤ 0) :
    (handleRequest p now req st).1 = Response.rError ("Invalid dimension value") ∧
    (handleRequest p now req st).2 = st := by
  unfold handleRequest
  rw [htype]
  rw [if_neg (by simp), if_neg (by simp), if_neg (by simp), if_neg (by simp), if_pos rfl]
  unfold handleSetDimension
  rcases hbad with h | ⟨b, h⟩ | ⟨n, h, hn⟩ <;> rw [h]
  · exact ⟨rfl, rfl⟩
  · exact ⟨rfl, rfl⟩
  · by_cases h0 : n = 0
    · simp only []
      rw [if_pos h0]
      exact ⟨rfl, rfl⟩
    · simp only []
      rw [if_neg h0, if_neg (by omega : ¬ (0 : Int) < n)]
      exact ⟨rfl, rfl⟩

/-- C10 witness: a dimension-less set_dimension request on a concrete
embedder. -/
theorem c10_witness :
    reqBadDim.reqType = some ("set_dimension") ∧
    (handleRequest cexParams 0 reqBadDim cexEmbedder).1 =
      Response.rError ("Invalid dimension value") ∧
    (handleRequest cexParams 0 reqBadDim cexEmbedder).2 = cexEmbedder :=
  ⟨rfl,
    (c10_set_dimension_atomic cexParams 0 reqBadDim cexEmbedder rfl (Or.inl rfl)).1,
    (c10_set_dimension_atomic cexParams 0 reqBadDim cexEmbedder rfl (Or.inl rfl)).2⟩

/-- C4: enqueue admission control. Above the CPU reject threshold with
no overflow the request is rejected; above the CPU queue threshold
with overflow the item goes straight to the overflow queue; with the
memory queues at or over max_queue the item spills to overflow when
available and is otherwise rejected with an error. -/
theorem c4_enqueue_admission (cfg : QQMSConfig) (cpu : ℚ) (hasOverflow : Bool) (now : ℚ)
    (id : String) (priority : Nat) (data : String) (st : QState) :
    (cfg.cpuRejectThreshold < cpu → hasOverflow = false →
      (qenqueue cfg cpu hasOverflow now id priority data st).1 =
        EnqueueResult.rejectedOverloaded) ∧
    (cfg.cpuQueueThreshold < cpu → hasOverflow = true →
      (qenqueue cfg cpu hasOverflow now id priority data st).1 =
        EnqueueResult.toOverflow) ∧
    (cfg.maxQueueSize ≤ queueTotal st →
      (hasOverflow = true →
        (qenqueue cfg cpu hasOverflow now id priority data st).1 =
          EnqueueResult.toOverflow) ∧
      (hasOverflow = false →
        (qenqueue cfg cpu hasOverflow now id priority data st).1 =
          EnqueueResult.rejectedOverloaded ∨
        (qenqueue cfg cpu hasOverflow now id priority data st).1 =
          EnqueueResult.rejectedFull)) := by
  refine ⟨fun h1 h2 => ?_, fun h1 h2 => ?_,
    fun hq => ⟨fun h2 => ?_, fun h2 => ?_⟩⟩ <;> subst h2
  · simp [qenqueue, h1]
  · by_cases hr : cfg.cpuRejectThreshold < cpu
    · simp [qenqueue, hr]
    · simp [qenqueue, hr, h1]
  · by_cases hr : cfg.cpuRejectThreshold < cpu
    · simp [qenqueue, hr]
    · by_cases hqt : cfg.cpuQueueThreshold < cpu
      · simp [qenqueue, hr, hqt]
      · simp [qenqueue, hr, hqt, hq]
  · by_cases hr : cfg.cpuRejectThreshold < cpu
    · left
      simp [qenqueue, hr]
    · right
      by_cases hqt : cfg.cpuQueueThreshold < cpu
      · simp [qenqueue, hr, hqt, hq]
      · simp [qenqueue, hr, hqt, hq]

/-- C4 witness: the four admission outcomes on concrete states. -/
theorem c4_witness :
    (qenqueue qqmsDefault 95 false 0 ("w") 2 ("payload") stqTwo).1 =
      EnqueueResult.rejectedOverloaded ∧
    (qenqueue qqmsDefault 75 true 0 ("w") 2 ("payload") stqTwo).1 =
      EnqueueResult.toOverflow ∧
    (qenqueue cfgSmallQueue 10 true 0 ("w") 2 ("payload") stqTwo).1 =
      EnqueueResult.toOverflow ∧
    ((qenqueue cfgSmallQueue 10 false 0 ("w") 2 ("payload") stqTwo).1 =
        EnqueueResult.rejectedOverloaded ∨
      (qenqueue cfgSmallQueue 10 false 0 ("w") 2 ("payload") stqTwo).1 =
        EnqueueResult.rejectedFull) :=
  ⟨(c4_enqueue_admission qqmsDefault 95 false 0 ("w") 2 ("payload") stqTwo).1
      (by decide) rfl,
    (c4_enqueue_admission qqmsDefault 75 true 0 ("w") 2 ("payload") stqTwo).2.1
      (by decide) rfl,
    ((c4_enqueue_admission cfgSmallQueue 10 true 0 ("w") 2 ("payload") stqTwo).2.2
      (by decide)).1 rfl,
    ((c4_enqueue_admission cfgSmallQueue 10 false 0 ("w") 2 ("payload") stqTwo).2.2
      (by decide)).2 rfl⟩

/-! ## Helper lemmas: the FIFO + ACK queues -/

theorem mem_removeItem_ne (qs : List (List Item)) (id : String) (x : Item)
    (h : x ∈ allItems (removeItemFromQueues qs id)) : x.id ≠ id ∧ x ∈ allItems qs := by
  unfold allItems removeItemFromQueues at h
  rw [List.mem_flatten] at h
  rcases h with ⟨q2, hq2, hx⟩
  rcases List.mem_map.mp hq2 with ⟨q, hq, rfl⟩
  rcases List.mem_filter.mp hx with ⟨hxq, hcond⟩
  refine ⟨?_, ?_⟩
  · simpa using hcond
  · unfold allItems
    rw [List.mem_flatten]
    exact ⟨q, hq, hxq⟩

theorem mem_update_cases (qs : List (List Item)) (id : String) (it2 x : Item)
    (h : x ∈ allItems (updateItemInQueues qs id it2)) :
    x = it2 ∨ (x ∈ allItems qs ∧ x.id ≠ id) := by
  unfold allItems updateItemInQueues at h
  rw [List.mem_flatten] at h
  rcases h with ⟨q2, hq2, hx⟩
  rcases List.mem_map.mp hq2 with ⟨q, hq, rfl⟩
  rcases List.mem_map.mp hx with ⟨y, hy, rfl⟩
  by_cases hyid : y.id = id
  · left
    simp [hyid]
  · right
    constructor
    · unfold allItems
      rw [List.mem_flatten]
      refine ⟨q, hq, ?_⟩
      rw [if_neg hyid]
      exact hy
    · rw [if_neg hyid]
      exact hyid

theorem mem_appendAt (qs : List (List Item)) (n : Nat) (it x : Item)
    (h : x ∈ allItems (appendAt qs n it)) : x = it ∨ x ∈ allItems qs := by
  induction qs generalizing n with
  | nil => simp [appendAt, allItems] at h
  | cons q qs ih =>
    cases n with
    | zero =>
      simp only [appendAt, allItems, List.flatten_cons, List.mem_append] at h ⊢
      rcases h with (h | h) | h
      · exact Or.inr (Or.inl h)
      · simp at h
        exact Or.inl h
      · exact Or.inr (Or.inr h)
    | succ m =>
      simp only [appendAt, allItems, List.flatten_cons, List.mem_append] at h ⊢
      rcases h with h | h
      · exact Or.inr (Or.inl h)
      · rcases ih m h with h2 | h2
        · exact Or.inl h2
        · exact Or.inr (Or.inr h2)

theorem findFirstEligible_mem (now : ℚ) (qs : List (List Item)) (it : Item)
    (h : findFirstEligible now qs = some it) : it ∈ allItems qs := by
  induction qs with
  | nil => simp [findFirstEligible] at h
  | cons q qs ih =>
    unfold findFirstEligible at h
    unfold allItems
    rw [List.flatten_cons]
    cases hf : q.find? (eligible now) with
    | some it2 =>
      rw [hf] at h
      simp only [Option.some.injEq] at h
      subst h
      exact List.mem_append.mpr (Or.inl (List.mem_of_find?_eq_some hf))
    | none =>
      rw [hf] at h
      exact List.mem_append.mpr (Or.inr (ih h))

theorem mem_trimDlq (maxSize : Nat) (l : List DLQItem) (d : DLQItem)
    (h : d ∈ trimDlq maxSize l) : d ∈ l := by
  unfold trimDlq at h
  exact List.drop_subset _ l h

theorem mem_drop_append_singleton {α : Type u} (l : List α) (a : α) (k : Nat)
    (h : k ≤ l.length) : a ∈ (l ++ [a]).drop k := by
  induction l generalizing k with
  | nil =>
    have hk : k = 0 := by
      simpa using h
    subst hk
    simp
  | cons b l ih =>
    cases k with
    | zero => simp
    | succ m =>
      simp only [List.cons_append, List.drop_succ_cons]
      exact ih m (by simpa using h)

theorem nackItem_memInv (cfg : QQMSConfig) (now : ℚ) (err : String) (it : Item)
    (st : QState) (h : memInv cfg st) : memInv cfg (nackItem cfg now err it st).2 := by
  unfold nackItem
  by_cases hmax : cfg.maxRetries ≤ it.retryCount + 1
  · rw [if_pos hmax]
    constructor
    · intro x hx
      exact h.1 x (mem_removeItem_ne _ _ _ hx).2
    · intro d hd
      have hd2 := mem_trimDlq _ _ _ hd
      rcases List.mem_append.mp hd2 with hd3 | hd3
      · exact h.2 d hd3
      · simp at hd3
        subst hd3
        exact hmax
  · rw [if_neg hmax]
    constructor
    · intro x hx
      rcases mem_update_cases _ _ _ _ hx with rfl | ⟨hx2, _⟩
      · simpa using Nat.lt_of_not_le (by omega)
      · exact h.1 x hx2
    · exact h.2

theorem checkLease_foldl_memInv (cfg : QQMSConfig) (now : ℚ) (ids : List String)
    (st : QState) (h : memInv cfg st) :
    memInv cfg (ids.foldl (fun s id =>
      match findItemById s.queues id with
      | some it =>
          (nackItem cfg now ("Lease timeout - operation took too long") it
            { s with processingIds := s.processingIds.filter (fun x => !(x == id)) }).2
      | none => s) st) := by
  induction ids generalizing st with
  | nil => exact h
  | cons id ids ih =>
    simp only [List.foldl]
    apply ih
    cases hf : findItemById st.queues id with
    | some it =>
      exact nackItem_memInv cfg now _ it _ ⟨h.1, h.2⟩
    | none => exact h

/-- C3: NACKing a leased in-memory item increments its retry count;
at max_retries it moves to the DLQ, and otherwise it returns to
pending with next_retry_at scheduled by the exponential-backoff delay
of the incremented retry count, i.e. base * 2 ^ retry_count (capped),
twice the base * 2 ^ (retry_count - 1) the original claim states. -/
theorem c3_nack_retry_schedule (cfg : QQMSConfig) (now : ℚ) (err : String) (it : Item)
    (st : QState) (hdlq : 0 < cfg.dlqMaxSize) :
    (cfg.maxRetries ≤ it.retryCount + 1 →
      (nackItem cfg now err it st).1 = NackResult.dlq ∧
      (∀ x ∈ allItems (nackItem cfg now err it st).2.queues, x.id ≠ it.id) ∧
      ∃ d ∈ (nackItem cfg now err it st).2.dlq,
        d.id = it.id ∧ d.retryCount = it.retryCount + 1) ∧
    (it.retryCount + 1 < cfg.maxRetries →
      (nackItem cfg now err it st).1 = NackResult.retry ∧
      ∀ x ∈ allItems (nackItem cfg now err it st).2.queues, x.id = it.id →
        x.retryCount = it.retryCount + 1 ∧ x.status = Status.pending ∧
        x.nextRetryAt = some (now +
          min (cfg.baseRetryDelayMs * 2 ^ (it.retryCount + 1)) cfg.maxRetryDelayMs
            / 1000)) := by
  constructor
  · intro hmax
    unfold nackItem
    rw [if_pos hmax]
    refine ⟨rfl, ?_, ?_⟩
    · intro x hx
      exact (mem_removeItem_ne _ _ _ hx).1
    · refine ⟨{ id := it.id
                priority := it.originalPriority
                data := it.data
                enqueuedAt := it.enqueuedAt
                failedAt := now
                retryCount := it.retryCount + 1
                lastError := err }, ?_, rfl, rfl⟩
      unfold trimDlq
      apply mem_drop_append_singleton
      simp only [List.length_append, List.length_cons, List.length_nil]
      omega
  · intro hlt
    unfold nackItem
    rw [if_neg (by omega)]
    refine ⟨rfl, ?_⟩
    intro x hx hxid
    rcases mem_update_cases _ _ _ _ hx with rfl | ⟨_, hne⟩
    · exact ⟨rfl, rfl, by unfold getRetryDelay; rfl⟩
    · exact absurd hxid hne

/-- C3 counterexample: with the default configuration, NACKing a fresh
item (retry_count 0) schedules its retry 2 seconds out, while the
claim's base * 2 ^ (retry_count - 1) schedule predicts 1 second. -/
theorem c3_counterexample :
    ((findItemById (nackItem qqmsDefault 0 ("boom") itemA stqA).2.queues
        ("a")).map Item.nextRetryAt) =
      some (some (0 + getRetryDelay qqmsDefault (itemA.retryCount + 1) / 1000)) ∧
    0 + getRetryDelay qqmsDefault (itemA.retryCount + 1) / 1000 = 2 ∧
    (2 : ℚ) ≠ 0 + qqmsDefault.baseRetryDelayMs * 2 ^ (itemA.retryCount + 1 - 1) / 1000 := by
  refine ⟨rfl, ?_, ?_⟩
  · show 0 + min ((1000 : ℚ) * 2 ^ (0 + 1)) 30000 / 1000 = 2
    rw [min_def]
    norm_num
  · show (2 : ℚ) ≠ 0 + 1000 * 2 ^ (0 + 1 - 1) / 1000
    norm_num

/-- C3 witness: the amended schedule evaluated on a concrete item. -/
theorem c3_witness :
    0 < qqmsDefault.dlqMaxSize ∧
    itemA.retryCount + 1 < qqmsDefault.maxRetries ∧
    (nackItem qqmsDefault 0 ("boom") itemA stqA).1 = NackResult.retry :=
  ⟨by decide, by decide,
    ((c3_nack_retry_schedule qqmsDefault 0 ("boom") itemA stqA (by decide)).2
      (by decide)).1⟩

/-- C5: the retry-count bound as claimed fails on the overflow queue
(see the counterexample), but holds for the in-memory queues: every
enqueue, dequeue, ACK, NACK and lease-timeout step preserves the
invariant that non-DLQ items stay strictly below max_retries and DLQ
entries sit at or above it. -/
theorem c5_memory_invariant (cfg : QQMSConfig) (now : ℚ) (op : MemOp) (st : QState)
    (hmax : 1 ≤ cfg.maxRetries) (h : memInv cfg st) :
    memInv cfg (applyOp cfg now op st) := by
  cases op with
  | enq cpu hasOverflow id priority data =>
    simp only [applyOp]
    unfold qenqueue
    simp only []
    split
    · split
      · exact h
      · exact h
    · split
      · exact h
      · split
        · split
          · exact h
          · exact h
        · constructor
          · intro x hx
            rcases mem_appendAt _ _ _ _ hx with rfl | hx2
            · exact hmax
            · exact h.1 x hx2
          · exact h.2
  | deq =>
    simp only [applyOp]
    unfold dequeueOp
    cases hf : findFirstEligible now st.queues with
    | none =>
      simp only [hf]
      exact h
    | some it =>
      simp only [hf]
      constructor
      · intro x hx
        rcases mem_update_cases _ _ _ _ hx with rfl | ⟨hx2, _⟩
        · exact h.1 it (findFirstEligible_mem now st.queues it hf)
        · exact h.1 x hx2
      · exact h.2
  | ackId id =>
    simp only [applyOp]
    unfold ackOp
    split
    · constructor
      · intro x hx
        exact h.1 x (mem_removeItem_ne _ _ _ hx).2
      · exact h.2
    · exact h
  | nackId id err =>
    simp only [applyOp]
    unfold nackOp
    split
    · cases hf : findItemById
        { st with processingIds := st.processingIds.filter (fun x => !(x == id)) }.queues
        id with
      | some it =>
        simp only [hf]
        exact nackItem_memInv cfg now err it _ ⟨h.1, h.2⟩
      | none =>
        simp only [hf]
        exact h
    · exact h
  | lease =>
    simp only [applyOp]
    unfold checkLeaseTimeouts
    exact checkLease_foldl_memInv cfg now _ st h

/-- C5 counterexample: three overflow NACKs leave the spilled row
pending with retry_count equal to max_retries (default 3): the DLQ is
not the only state with retry_count at or above max_retries. -/
theorem c5_counterexample :
    (overflowNack 2 ("e3") 1000 (overflowNack 1 ("e2") 1000
        (overflowNack 0 ("e1") 1000 rowA))).status = Status.pending ∧
    qqmsDefault.maxRetries ≤
      (overflowNack 2 ("e3") 1000 (overflowNack 1 ("e2") 1000
        (overflowNack 0 ("e1") 1000 rowA))).retryCount := by
  constructor
  · decide
  · decide

/-- C5 witness: the in-memory invariant preserved across a concrete
NACK. -/
theorem c5_witness :
    1 ≤ qqmsDefault.maxRetries ∧
    memInv qqmsDefault stqA ∧
    memInv qqmsDefault (applyOp qqmsDefault 0 (MemOp.nackId ("a") ("boom")) stqA) :=
  ⟨by decide, by decide,
    c5_memory_invariant qqmsDefault 0 (MemOp.nackId ("a") ("boom")) stqA (by decide)
      (by decide)⟩

/-! ## Lemmas and claim for the disk-cache capacity bound -/

theorem cachePut_eq (p : Params) (now : ℚ) (text : String) (dims : Int) (emb : Vec)
    (st : CacheState) (htext : strBlank text = false) (hemb : emb.length ≠ 0)
    (hdims : ¬ dims ≤ 0) :
    cachePut p now text dims emb st =
      maybeEvict { st with
        diskFiles := setKey st.diskFiles (p.textHash text dims) emb
        diskWrites := st.diskWrites + 1
        index := setKey st.index (p.textHash text dims) ⟨dims, nbytes emb, now, now⟩
        ramCache := addToRam st.ramCache st.ramCacheSize (p.textHash text dims) emb } := by
  unfold cachePut
  rw [if_neg (by simp [htext]), if_neg hemb, if_neg hdims]

theorem maybeEvict_spec (st : CacheState) (h : st.maxBytes < indexTotalSize st.index) :
    5 * indexTotalSize (maybeEvict st).index ≤ 4 * st.maxBytes ∧
    ∃ n, (maybeEvict st).index = (sortByAccessed st.index).drop n := by
  unfold maybeEvict
  rw [if_neg (by omega)]
  exact ⟨evictFrom_total _ _, evictFrom_drop _ _⟩

/-- C6: when a write pushes the recorded index total over max_bytes,
eviction drops the oldest entries by accessed time (the surviving
index is a suffix of the access-time-sorted entries) until the
recorded total is at most 0.8 * max_bytes, so it is at most max_bytes
after the write. -/
theorem c6_eviction_capacity (p : Params) (now : ℚ) (text : String) (dims : Int)
    (emb : Vec) (st : CacheState) (htext : strBlank text = false)
    (hemb : emb.length ≠ 0) (hdims : ¬ dims ≤ 0)
    (htrig : st.maxBytes <
      indexTotalSize (setKey st.index (p.textHash text dims)
        ⟨dims, nbytes emb, now, now⟩)) :
    5 * indexTotalSize (cachePut p now text dims emb st).index ≤ 4 * st.maxBytes ∧
    indexTotalSize (cachePut p now text dims emb st).index ≤ st.maxBytes ∧
    ∃ n, (cachePut p now text dims emb st).index =
      (sortByAccessed (setKey st.index (p.textHash text dims)
        ⟨dims, nbytes emb, now, now⟩)).drop n := by
  rw [cachePut_eq p now text dims emb st htext hemb hdims]
  have h := maybeEvict_spec
    { st with
      diskFiles := setKey st.diskFiles (p.textHash text dims) emb
      diskWrites := st.diskWrites + 1
      index := setKey st.index (p.textHash text dims) ⟨dims, nbytes emb, now, now⟩
      ramCache := addToRam st.ramCache st.ramCacheSize (p.textHash text dims) emb }
    htrig
  have hfrac : ∀ a b : Nat, 5 * a ≤ 4 * b → a ≤ b := by
    intro a b hab
    omega
  exact ⟨h.1, hfrac _ _ h.1, h.2⟩

/-- C6 witness: a concrete write that overflows a 10-byte cache. -/
theorem c6_witness :
    st6.maxBytes <
      indexTotalSize (setKey st6.index (cexParams.textHash ("b") 1) ⟨1, nbytes [1, 1], 5, 5⟩) ∧
    5 * indexTotalSize (cachePut cexParams 5 ("b") 1 [1, 1] st6).index ≤ 4 * st6.maxBytes ∧
    indexTotalSize (cachePut cexParams 5 ("b") 1 [1, 1] st6).index ≤ st6.maxBytes :=
  ⟨by decide,
    (c6_eviction_capacity cexParams 5 ("b") 1 [1, 1] st6 (by decide) (by decide)
      (by decide) (by decide)).1,
    (c6_eviction_capacity cexParams 5 ("b") 1 [1, 1] st6 (by decide) (by decide)
      (by decide) (by decide)).2.1⟩

/-- C2 counterexample: with only a 256-component model cached and a
compression from 384 to 300 (ratio over 10 percent, no model for
exactly 300), the adapter does not fall back to truncation to 300 as
the claim states: it applies the closest cached model instead. -/
theorem c2_counterexample : pcaTransform cexPCA cexVec 300 ≠ takeInt cexVec 300 := by
  have h1 : ¬ ((cexVec.length : Int) ≤ 300) := by decide
  have h2 : ¬ (((cexVec.length : ℚ) - ((300 : Int) : ℚ)) / (cexVec.length : ℚ) < 1 / 10) := by
    have h384 : cexVec.length = 384 := by simp [cexVec]
    rw [h384]
    norm_num
  unfold pcaTransform
  rw [if_neg h1, if_neg h2]
  decide

/-- C2: the compression dispatch of the dimension adapter. Reductions
under 10 percent truncate; otherwise the model fitted for exactly the
target is applied when cached; when it is not, the adapter does not
truncate as the original claim states: it applies the cached model
whose target is closest to the requested one (truncating an output
that is longer), and truncates only when no models are cached at
all. -/
theorem c2_compression_dispatch (st : PCAState) (v : Vec) (T : Int)
    (hlen : T < (v.length : Int)) :
    ((((v.length : ℚ) - (T : ℚ)) / (v.length : ℚ) < 1 / 10) →
      pcaTransform st v T = takeInt v T) ∧
    (¬ (((v.length : ℚ) - (T : ℚ)) / (v.length : ℚ) < 1 / 10) →
      (∀ g, st.pcaModels.lookup T = some g →
        pcaTransform st v T = truncLonger (g v) T) ∧
      (st.pcaModels.lookup T = none → st.pcaModels = [] →
        pcaTransform st v T = takeInt v T) ∧
      (st.pcaModels.lookup T = none → st.pcaModels ≠ [] →
        ∃ c g, st.pcaModels.lookup c = some g ∧
          (∀ d ∈ st.pcaModels.map Prod.fst, |c - T| ≤ |d - T|) ∧
          pcaTransform st v T = truncLonger (g v) T)) := by
  have h1 : ¬ ((v.length : Int) ≤ T) := by omega
  constructor
  · intro hr
    unfold pcaTransform
    rw [if_neg h1, if_pos hr]
  · intro hr
    refine ⟨?_, ?_, ?_⟩
    · intro g hg
      unfold pcaTransform
      rw [if_neg h1, if_neg hr]
      simp only [hg]
    · intro hnone hnil
      unfold pcaTransform
      rw [if_neg h1, if_neg hr, hnone, hnil]
      simp [sortInts, closestKey]
    · intro hnone hnil
      have hkeys : st.pcaModels.map Prod.fst ≠ [] := by
        simpa using hnil
      have hs := sortInts_ne_nil _ hkeys
      rcases closestKey_spec T _ hs with ⟨c, hck, hcmem, hcmin⟩
      have hcmem2 : c ∈ st.pcaModels.map Prod.fst := (mem_sortInts c _).mp hcmem
      rcases lookup_some_of_mem_keys _ c hcmem2 with ⟨g, hg⟩
      refine ⟨c, g, hg, ?_, ?_⟩
      · intro d hd
        exact hcmin d ((mem_sortInts d _).mpr hd)
      · unfold pcaTransform
        rw [if_neg h1, if_neg hr]
        simp only [hnone, hck, hg]

/-- C2 witness: the exact-match branch evaluated on a model fitted for
exactly 300 components. -/
theorem c2_witness :
    ((300 : Int) < (cexVec.length : Int)) ∧
    ¬ (((cexVec.length : ℚ) - ((300 : Int) : ℚ)) / (cexVec.length : ℚ) < 1 / 10) ∧
    pcaTransform pcaExact cexVec 300 = truncLonger (modelExact cexVec) 300 := by
  have hr : ¬ (((cexVec.length : ℚ) - ((300 : Int) : ℚ)) / (cexVec.length : ℚ) < 1 / 10) := by
    have h384 : cexVec.length = 384 := by simp [cexVec]
    rw [h384]
    norm_num
  exact ⟨by decide, hr,
    ((c2_compression_dispatch pcaExact cexVec 300 (by decide)).2 hr).1 modelExact rfl⟩

/-- C1: on an embedder whose only fitted PCA model has 256 components
and whose oracle target is 300, a successful embed response carries a
256-dimensional embedding with dimensions = 256 while target_dims is
300: the response length equals the dimensions field but not the
effective target dimension, contradicting the claim (and the source's
own docstring, which promises the database target dimension). -/
theorem c1_dimension_mismatch_eval :
    (respEmbedding (handleRequest cexParams 0 reqC1 cexEmbedder).1).map List.length =
      some 256 ∧
    respDimensions (handleRequest cexParams 0 reqC1 cexEmbedder).1 = some 256 ∧
    respTargetDims (handleRequest cexParams 0 reqC1 cexEmbedder).1 = some 300 ∧
    (256 : Nat) ≠ 300 := by
  have htr : pcaTransform cexPCA (List.replicate 384 (1 : ℚ)) 300 =
      List.replicate 256 (1 : ℚ) := by
    have h1 : ¬ (((List.replicate 384 (1 : ℚ)).length : Int) ≤ 300) := by decide
    have h2 : ¬ ((((List.replicate 384 (1 : ℚ)).length : ℚ) - ((300 : Int) : ℚ)) /
        ((List.replicate 384 (1 : ℚ)).length : ℚ) < 1 / 10) := by
      rw [List.length_replicate]
      norm_num
    unfold pcaTransform
    rw [if_neg h1, if_neg h2]
    decide
  have hstep : (embedSingle cexParams 0 cexEmbedder ("demo") none
      (parsePriority (strLower ("medium")))).1 =
      normalize cexParams (pcaTransform cexPCA (List.replicate 384 (1 : ℚ)) 300) := by
    rfl
  have hn1 : cexParams.l2norm (List.replicate 256 (1 : ℚ)) = 1 := rfl
  have hnorm : normalize cexParams (List.replicate 256 (1 : ℚ)) =
      (List.replicate 256 (1 : ℚ)).map (fun x => x / 1) := by
    unfold normalize
    rw [hn1, if_pos (by norm_num : (0 : ℚ) < 1)]
  have hlen : (embedSingle cexParams 0 cexEmbedder ("demo") none
      (parsePriority (strLower ("medium")))).1.length = 256 := by
    rw [hstep, htr, hnorm]
    simp
  have hdim : (embedSingle cexParams 0 cexEmbedder ("demo") none
      (parsePriority (strLower ("medium")))).2.dimTarget = 300 := by
    rw [(embedSingle_fields cexParams 0 cexEmbedder ("demo") none
      (parsePriority (strLower ("medium")))).1]
    rfl
  have hresp : (handleRequest cexParams 0 reqC1 cexEmbedder).1 =
      Response.rEmbed
        (embedSingle cexParams 0 cexEmbedder ("demo") none
          (parsePriority (strLower ("medium")))).1
        (embedSingle cexParams 0 cexEmbedder ("demo") none
          (parsePriority (strLower ("medium")))).1.length
        (embedSingle cexParams 0 cexEmbedder ("demo") none
          (parsePriority (strLower ("medium")))).2.dimTarget
        (strLower ("medium")) := rfl
  rw [hresp]
  refine ⟨?_, ?_, ?_, by decide⟩
  · simp only [respEmbedding, Option.map, hlen]
  · simp only [respDimensions, hlen]
  · simp only [respTargetDims, hdim]

/-! ## Helper lemmas: batch state threading -/

theorem scanCache_lastBatchPriority (p : Params) (now : ℚ) (target : Int) :
    ∀ (ts : List String) (i : Nat) (st : EmbedderState),
    (scanCache p now target ts i st).2.2.lastBatchPriority = st.lastBatchPriority := by
  intro ts
  induction ts with
  | nil =>
    intro i st
    rfl
  | cons t ts ih =>
    intro i st
    unfold scanCache
    rcases hg : cacheGet p now t target st.cache with ⟨v?, c2⟩
    cases v? with
    | some v =>
      simp only []
      exact ih _ _
    | none =>
      simp only []
      exact ih _ _

theorem batchScan_lastBatchPriority (p : Params) (now : ℚ) (target : Int)
    (texts : List String) (st : EmbedderState) :
    (batchScan p now target texts st).2.2.lastBatchPriority = st.lastBatchPriority := by
  unfold batchScan
  split
  · exact scanCache_lastBatchPriority p now target texts 0 st
  · rfl

theorem batchStep_lastBatchPriority (p : Params) (now : ℚ) (target : Int)
    (acc : List (Nat × Vec) × EmbedderState) (q : (Nat × String) × Vec) :
    ((batchStep p now target acc q).2).lastBatchPriority = acc.2.lastBatchPriority := by
  unfold batchStep
  simp only []
  exact transformDims_lastBatchPriority p acc.2 q.2 target q.1.2

theorem foldl_batchStep_lastBatchPriority (p : Params) (now : ℚ) (target : Int)
    (l : List ((Nat × String) × Vec)) :
    ∀ (acc : List (Nat × Vec)) (s : EmbedderState),
    ((l.foldl (batchStep p now target) (acc, s)).2).lastBatchPriority =
      s.lastBatchPriority := by
  induction l with
  | nil =>
    intro acc s
    rfl
  | cons q l ih =>
    intro acc s
    simp only [List.foldl]
    exact ((ih (batchStep p now target (acc, s) q).1
      (batchStep p now target (acc, s) q).2).trans
      (batchStep_lastBatchPriority p now target (acc, s) q))

theorem embedBatch_lastBatchPriority (p : Params) (now : ℚ) (st : EmbedderState)
    (texts : List String) (fd : Option Int) (priority : Priority) :
    (embedBatch p now st texts fd priority).2.lastBatchPriority = some priority := by
  unfold embedBatch
  simp only []
  split
  · exact batchScan_lastBatchPriority p now _ texts _
  · exact (foldl_batchStep_lastBatchPriority p now _ _ [] _).trans
      (batchScan_lastBatchPriority p now _ texts _)

/-- C8: a batch_embed request that omits the priority field is
processed at priority low (the batch default), but the priority field
of the response reports the pre-defaulted string "medium", not the
applied priority: the original claim's "reports that applied
priority" fails (see the counterexample). -/
theorem c8_batch_priority (p : Params) (now : ℚ) (req : Request) (st : EmbedderState)
    (htype : req.reqType = some ("batch_embed") ∨ req.reqType = none)
    (hstats : req.stats = false) (hrefresh : req.refreshDimension = false)
    (htext : req.text = none) (ts : List String) (htexts : req.texts = some ts)
    (hpriority : req.priority = none) :
    respPriority (handleRequest p now req st).1 = some ("medium") ∧
    (handleRequest p now req st).2.lastBatchPriority = some Priority.low := by
  have hm : strLower ((none : Option String).getD ("medium")) = ("medium") := by decide
  unfold handleRequest
  rcases htype with htype | htype <;>
    rw [htype, if_neg (by decide), if_neg (by decide), if_neg (by decide),
      if_neg (by decide), if_neg (by decide), if_neg (by decide), hstats,
      if_neg (by decide), hrefresh, if_neg (by decide), htext, htexts, hpriority] <;>
    exact ⟨(congrArg some hm :
        some (strLower ((none : Option String).getD ("medium"))) = some ("medium")),
      embedBatch_lastBatchPriority p now st ts req.dims Priority.low⟩

/-- C8 counterexample: the concrete batch request without a priority
field is throttled and recorded at priority low while the response
says "medium". -/
theorem c8_counterexample :
    respPriority (handleRequest p7 0 req8 st8).1 = some ("medium") ∧
    (handleRequest p7 0 req8 st8).2.lastBatchPriority = some Priority.low ∧
    (handleRequest p7 0 req8 st8).2.batchThrottleCalls = [(1, Priority.low)] ∧
    some ("medium") ≠ some ("low") := by
  refine ⟨?_, ?_, ?_, by decide⟩ <;> decide

/-- C8 witness: the amended behaviour evaluated on the concrete batch
request. -/
theorem c8_witness :
    req8.priority = none ∧
    respPriority (handleRequest p7 0 req8 st8).1 = some ("medium") ∧
    (handleRequest p7 0 req8 st8).2.lastBatchPriority = some Priority.low :=
  ⟨rfl,
    (c8_batch_priority p7 0 req8 st8 (Or.inr rfl) rfl rfl rfl [("a")] rfl rfl).1,
    (c8_batch_priority p7 0 req8 st8 (Or.inr rfl) rfl rfl rfl [("a")] rfl rfl).2⟩

/-! ## C9: batch order preservation -/

theorem lookup_cons_self {κ : Type} {β : Type v} [BEq κ] [LawfulBEq κ] (k : κ) (b : β)
    (l : List (κ × β)) : List.lookup k ((k, b) :: l) = some b := by
  simp [List.lookup]

theorem lookup_cons_ne {κ : Type} {β : Type v} [BEq κ] [LawfulBEq κ] {k a : κ}
    (h : ¬ k = a) (b : β) (l : List (κ × β)) :
    List.lookup k ((a, b) :: l) = List.lookup k l := by
  have hb : (k == a) = false := by
    rw [beq_eq_false_iff_ne]
    exact h
  simp [List.lookup, hb]

/-- Every index produced by the cache scan is at least the starting
index. -/
theorem scanCache_keys_ge (p : Params) (now : ℚ) (target : Int) :
    ∀ (ts : List String) (i : Nat) (st : EmbedderState),
    (∀ q ∈ (scanCache p now target ts i st).1, i ≤ q.1) ∧
    (∀ q ∈ (scanCache p now target ts i st).2.1, i ≤ q.1) := by
  intro ts
  induction ts with
  | nil =>
    intro i st
    constructor <;> intro q hq <;> simp [scanCache] at hq
  | cons t ts ih =>
    intro i st
    simp only [scanCache]
    rcases hg : cacheGet p now t target st.cache with ⟨v?, c2⟩
    cases v? with
    | some v =>
      simp only []
      constructor
      · intro q hq
        rcases List.mem_cons.mp hq with hq | hq
        · simp [hq]
        · exact Nat.le_of_succ_le ((ih (i + 1) _).1 q hq)
      · intro q hq
        exact Nat.le_of_succ_le ((ih (i + 1) _).2 q hq)
    | none =>
      simp only []
      constructor
      · intro q hq
        exact Nat.le_of_succ_le ((ih (i + 1) _).1 q hq)
      · intro q hq
        rcases List.mem_cons.mp hq with hq | hq
        · simp [hq]
        · exact Nat.le_of_succ_le ((ih (i + 1) _).2 q hq)

/-- Each in-range index lands in exactly one side of the scan
partition, and a miss records the text itself. -/
theorem scanCache_lookup (p : Params) (now : ℚ) (target : Int) :
    ∀ (ts : List String) (i : Nat) (st : EmbedderState) (j : Nat), j < ts.length →
    ((scanCache p now target ts i st).1.lookup (i + j) = none ∧
     (scanCache p now target ts i st).2.1.lookup (i + j) = some (ts.getD j (""))) ∨
    (∃ v, (scanCache p now target ts i st).1.lookup (i + j) = some v ∧
      (scanCache p now target ts i st).2.1.lookup (i + j) = none) := by
  intro ts
  induction ts with
  | nil =>
    intro i st j hj
    simp at hj
  | cons t ts ih =>
    intro i st j hj
    simp only [scanCache]
    rcases hg : cacheGet p now t target st.cache with ⟨v?, c2⟩
    cases v? with
    | some v =>
      simp only []
      cases j with
      | zero =>
        right
        refine ⟨v, ?_, ?_⟩
        · rw [Nat.add_zero]
          exact lookup_cons_self i v _
        · apply lookup_none_of_keys_lt
          intro q hq
          have hk := (scanCache_keys_ge p now target ts (i + 1) _).2 q hq
          omega
      | succ m =>
        have hm : m < ts.length := by
          simp [List.length_cons] at hj
          omega
        rw [lookup_cons_ne (by omega : ¬ i + (m + 1) = i) v _]
        rw [(by omega : i + (m + 1) = (i + 1) + m), List.getD_cons_succ]
        exact ih (i + 1) _ m hm
    | none =>
      simp only []
      cases j with
      | zero =>
        left
        constructor
        · apply lookup_none_of_keys_lt
          intro q hq
          have hk := (scanCache_keys_ge p now target ts (i + 1) _).1 q hq
          omega
        · rw [Nat.add_zero, List.getD_cons_zero]
          exact lookup_cons_self i t _
      | succ m =>
        have hm : m < ts.length := by
          simp [List.length_cons] at hj
          omega
        rw [lookup_cons_ne (by omega : ¬ i + (m + 1) = i) t _]
        rw [(by omega : i + (m + 1) = (i + 1) + m), List.getD_cons_succ]
        exact ih (i + 1) _ m hm

/-- Looking an in-range index up in an enumeration returns the element
at that index. -/
theorem enumFrom_lookup : ∀ (ts : List String) (i j : Nat), j < ts.length →
    (List.enumFrom i ts).lookup (i + j) = some (ts.getD j ("")) := by
  intro ts
  induction ts with
  | nil =>
    intro i j hj
    simp at hj
  | cons t ts ih =>
    intro i j hj
    cases j with
    | zero =>
      simp only [List.enumFrom]
      rw [Nat.add_zero, List.getD_cons_zero]
      exact lookup_cons_self i t _
    | succ m =>
      have hm : m < ts.length := by
        simp [List.length_cons] at hj
        omega
      simp only [List.enumFrom]
      rw [lookup_cons_ne (by omega : ¬ i + (m + 1) = i) t _]
      rw [(by omega : i + (m + 1) = (i + 1) + m), List.getD_cons_succ]
      exact ih (i + 1) m hm

/-- Scan partition of embed_batch, covering both the cache-enabled and
cache-disabled entry points. -/
theorem batchScan_lookup (p : Params) (now : ℚ) (target : Int) (texts : List String)
    (st : EmbedderState) (j : Nat) (hj : j < texts.length) :
    ((batchScan p now target texts st).1.lookup j = none ∧
     (batchScan p now target texts st).2.1.lookup j = some (texts.getD j (""))) ∨
    (∃ v, (batchScan p now target texts st).1.lookup j = some v ∧
      (batchScan p now target texts st).2.1.lookup j = none) := by
  unfold batchScan
  split
  · have hsc := scanCache_lookup p now target texts 0 st j hj
    simpa using hsc
  · left
    refine ⟨by simp [List.lookup], ?_⟩
    have he := enumFrom_lookup texts 0 j hj
    simpa [List.enum] using he

/-- The transform loop never changes the PCA state or feature flags. -/
theorem batchStep_snd_config (p : Params) (now : ℚ) (target : Int)
    (acc : List (Nat × Vec) × EmbedderState) (q : (Nat × String) × Vec) :
    (batchStep p now target acc q).2.pca = acc.2.pca ∧
    (batchStep p now target acc q).2.pcaEnabled = acc.2.pcaEnabled ∧
    (batchStep p now target acc q).2.expanderEnabled = acc.2.expanderEnabled := by
  unfold batchStep
  simp only []
  exact ⟨transformDims_pca p acc.2 q.2 target q.1.2,
    transformDims_pcaEnabled p acc.2 q.2 target q.1.2,
    transformDims_expanderEnabled p acc.2 q.2 target q.1.2⟩

/-- The rows accumulated by the transform loop: each input contributes
the adapt-then-normalise value of its vector, under any state agreeing
with the reference state on the PCA and the feature flags. -/
theorem foldl_batchStep_fst (p : Params) (now : ℚ) (target : Int) (S : EmbedderState) :
    ∀ (l : List ((Nat × String) × Vec)) (acc : List (Nat × Vec)) (s : EmbedderState),
    s.pca = S.pca → s.pcaEnabled = S.pcaEnabled → s.expanderEnabled = S.expanderEnabled →
    (l.foldl (batchStep p now target) (acc, s)).1 =
      acc ++ l.map (fun q => (q.1.1, normalize p (transformDims p S q.2 target q.1.2).1)) := by
  intro l
  induction l with
  | nil =>
    intro acc s h1 h2 h3
    simp
  | cons q l ih =>
    intro acc s h1 h2 h3
    rw [List.foldl_cons, List.map_cons]
    have hcfg := batchStep_snd_config p now target (acc, s) q
    have hval : (batchStep p now target (acc, s) q).1 =
        acc ++ [(q.1.1, normalize p (transformDims p S q.2 target q.1.2).1)] := by
      unfold batchStep
      simp only []
      rw [transformDims_fst_congr p s S q.2 target q.1.2 h1 h2 h3]
    have hmain := ih (batchStep p now target (acc, s) q).1
      (batchStep p now target (acc, s) q).2
      (hcfg.1.trans h1) (hcfg.2.1.trans h2) (hcfg.2.2.trans h3)
    calc (l.foldl (batchStep p now target) (batchStep p now target (acc, s) q)).1
        = (l.foldl (batchStep p now target)
            ((batchStep p now target (acc, s) q).1,
             (batchStep p now target (acc, s) q).2)).1 := rfl
      _ = acc ++ ((q.1.1, normalize p (transformDims p S q.2 target q.1.2).1) ::
            l.map (fun r => (r.1.1, normalize p (transformDims p S r.2 target r.1.2).1))) := by
          rw [hmain, hval]
          simp

/-- Row lookup in the output of the transform loop, phrased exactly as
embed_batch builds it: the fresh rows keep their original indices and
carry the adapt-then-normalise value of the freshly encoded text. -/
theorem batchFresh_lookup (p : Params) (now : ℚ) (target : Int) (S : EmbedderState)
    (M : List (Nat × String)) (k : Nat) :
    ((M.zip (M.map (fun q => p.encode q.2))).foldl (batchStep p now target) ([], S)).1.lookup k
      = (M.lookup k).map
          (fun t => normalize p (transformDims p S (p.encode t) target t).1) := by
  rw [zip_map_self]
  rw [foldl_batchStep_fst p now target S (M.map (fun q => (q, p.encode q.2))) [] S rfl rfl rfl]
  rw [List.nil_append, List.map_map]
  have hmap : M.map ((fun q : (Nat × String) × Vec =>
      (q.1.1, normalize p (transformDims p S q.2 target q.1.2).1)) ∘
      (fun q : Nat × String => (q, p.encode q.2)))
      = M.map (fun q : Nat × String =>
        (q.1, normalize p (transformDims p S (p.encode q.2) target q.2).1)) := rfl
  rw [hmap]
  exact lookup_map_pair M
    (fun q : Nat × String => normalize p (transformDims p S (p.encode q.2) target q.2).1) k

theorem buildRows_length (n : Nat) (m : List (Nat × Vec)) : (buildRows n m).length = n := by
  simp [buildRows]

theorem buildRows_getD (n : Nat) (m : List (Nat × Vec)) (i : Nat) (h : i < n) :
    (buildRows n m).getD i [] = (m.lookup i).getD [] := by
  unfold buildRows
  rw [List.getD_eq_getElem?_getD, List.getElem?_map, List.getElem?_range h]
  rfl

/-- C9: for every batch_embed call the returned matrix has one row per
input text, and for every in-range index i its i-th row is the
embedding owed to texts[i] — the scanned cache value on a cache hit,
the freshly encoded, adapted and normalised value otherwise — so input
order is preserved under partial cache hits. -/
theorem c9_batch_order (p : Params) (now : ℚ) (st : EmbedderState)
    (texts : List String) (fd : Option Int) (priority : Priority)
    (i : Nat) (h : i < texts.length) :
    (embedBatch p now st texts fd priority).1.length = texts.length ∧
    (embedBatch p now st texts fd priority).1.getD i [] =
      batchRowSpec p now st texts fd priority i := by
  constructor
  · unfold embedBatch
    simp only []
    split
    · exact buildRows_length _ _
    · exact buildRows_length _ _
  · have hlu := batchScan_lookup p now (effectiveTarget st fd) texts
      (batchEntryState st priority) i h
    unfold embedBatch batchRowSpec
    simp only []
    split
    · rcases hlu with ⟨hn, hs⟩ | ⟨v, hv, hvn⟩
      · exfalso
        rename_i hempt
        have he : (batchScan p now (effectiveTarget st fd) texts
            (batchEntryState st priority)).2.1 = [] := by
          simpa using hempt
        rw [he] at hs
        simp [List.lookup] at hs
      · rw [buildRows_getD _ _ _ h, hv]
        rfl
    · have hcg := transformDims_fst_congr p
        (batchMissState p
          (batchScan p now (effectiveTarget st fd) texts (batchEntryState st priority)).2.1
          priority
          (batchScan p now (effectiveTarget st fd) texts (batchEntryState st priority)).2.2)
        (postScanState p now (effectiveTarget st fd) texts (batchEntryState st priority))
        (p.encode (texts.getD i ("")))
        (effectiveTarget st fd)
        (texts.getD i (""))
        rfl rfl rfl
      rw [buildRows_getD _ _ _ h, lookup_append,
        batchFresh_lookup p now (effectiveTarget st fd)
          (batchMissState p
            (batchScan p now (effectiveTarget st fd) texts (batchEntryState st priority)).2.1
            priority
            (batchScan p now (effectiveTarget st fd) texts (batchEntryState st priority)).2.2)
          (batchScan p now (effectiveTarget st fd) texts (batchEntryState st priority)).2.1 i]
      rcases hlu with ⟨hn, hs⟩ | ⟨v, hv, hvn⟩
      · rw [hn, hs]
        exact congrArg (fun w => normalize p w) hcg
      · rw [hv]
        rfl

/-- C9 witness: a batch over ["a", "b"] against a cache that already
holds "a": both rows are present, row 0 is the cached vector and row 1
matches the fresh-encoding specification. -/
theorem c9_witness :
    ((0 : Nat) < ([("a"), ("b")] : List String).length ∧
     (1 : Nat) < ([("a"), ("b")] : List String).length) ∧
    (embedBatch p7 0 st9 [("a"), ("b")] none Priority.medium).1.length = 2 ∧
    (embedBatch p7 0 st9 [("a"), ("b")] none Priority.medium).1.getD 0 [] =
      batchRowSpec p7 0 st9 [("a"), ("b")] none Priority.medium 0 ∧
    (embedBatch p7 0 st9 [("a"), ("b")] none Priority.medium).1.getD 1 [] =
      batchRowSpec p7 0 st9 [("a"), ("b")] none Priority.medium 1 ∧
    batchRowSpec p7 0 st9 [("a"), ("b")] none Priority.medium 0 = [7, 24] :=
  ⟨⟨by decide, by decide⟩,
    (c9_batch_order p7 0 st9 [("a"), ("b")] none Priority.medium 0 (by decide)).1,
    (c9_batch_order p7 0 st9 [("a"), ("b")] none Priority.medium 0 (by decide)).2,
    (c9_batch_order p7 0 st9 [("a"), ("b")] none Priority.medium 1 (by decide)).2,
    by decide⟩

end SpecMem
